import Mathlib

/-!
Verification of the javabind marshaling and binding-registration subsystem.

This file gives a shallow embedding, in Lean 4, of the parts of the javabind
C++ library (src/include/javabind) that the specification's testable
properties talk about:

* the pending-exception discipline of the JNI boundary
  (exception.hpp: exception_handler, throw_exception);
* the type-erased trampolines (binding.hpp: Adapter, MemberAdapter,
  DestroyObjectAdapter);
* the registration builders and their process-wide registries
  (binding.hpp: record_class, static_class, native_class, enum_class);
* the compile-time wire-signature derivation (core.hpp, object.hpp,
  part_002 collection traits);
* the module load routine (javabind.hpp: java_initialization_impl) and the
  enum-binding initialization (part_005: EnumValues::initialize);
* the value marshaling converters (core.hpp, optional.hpp, record.hpp,
  part_005 enum converter);
* the thread-environment acquisition and global-reference release
  (global.hpp: Environment::getEnv, GlobalObjectRef).

JNI itself (the managed runtime) is external to the repository; it is
modelled by explicit state and oracle structures.  Machine integers are
modelled as Int (every conversion in scope is an identity-preserving
static_cast between same-width types), and JNI object references are
modelled by their observable content.
-/

namespace Javabind

/-! ### JNI status codes (jni.h constants used by javabind.hpp) -/

def JNI_OK : Int := 0

def JNI_ERR : Int := -1

/-- JNI_VERSION_1_6 = 0x00010006; the success status of JNI_OnLoad. -/
def JNI_VERSION_1_6 : Int := 65542

/-! ### Pending Java exceptions

A Java throwable is either an already-existing throwable object re-thrown via
env->Throw (modelled by an opaque id), or a fresh exception created via
env->ThrowNew with a class path and a message string. -/

inductive Throwable
| raw (id : Nat)
| exc (cls : String) (message : String)
deriving DecidableEq, Repr

/-- The JNI pending-exception slot of the current thread: none means no
exception is pending. -/
abbrev Pending := Option Throwable

/-- Model of javabind::exception_handler (exception.hpp lines 20-27):
if no Java exception is pending, ThrowNew a java/lang/Exception carrying the
native exception message; otherwise leave the pending exception in place. -/
def exception_handler (pending : Pending) (message : String) : Pending :=
  match pending with
  | some t => some t
  | none => some (Throwable.exc "java/lang/Exception" message)

/-- Model of javabind::throw_exception (exception.hpp lines 29-36): clear any
pending exception, then ThrowNew a java/lang/Exception with the reason. -/
def throw_exception (_pending : Pending) (reason : String) : Pending :=
  some (Throwable.exc "java/lang/Exception" reason)

/-! ### Trampoline adapters (binding.hpp)

The body of a trampoline's try block (argument conversion, the native call
and result conversion composed) can finish in one of four ways, mirroring
what the C++ catch clauses can see: a normal result, a thrown
javabind::JavaException (which carries the original Java throwable as
innerException), a thrown exception derived from std::exception (observed
through its what() message), or a thrown exception of any other type, which
matches no catch clause.  Each non-other outcome records the
pending-exception state at the moment the try block exits. -/

inductive TryOutcome (β : Type)
| ok (v : β) (pending : Pending)
| javaExc (inner : Throwable) (pending : Pending)
| stdExc (message : String) (pending : Pending)
| otherExc
deriving DecidableEq, Repr

/-- Result of a trampoline invocation as seen by the managed runtime: either
control returns with a value and a pending-exception state, or a native
exception unwinds through the JNI call frame. -/
inductive InvokeOutcome (β : Type)
| returned (v : β) (pending : Pending)
| unwound
deriving DecidableEq, Repr

/-- Model of Adapter::invoke (binding.hpp lines 84-104) for a non-void
result type.  dflt is the default-constructed java_t of the result type.
A JavaException is re-thrown via env->Throw(ex.innerException()); a
std::exception goes through exception_handler; any other exception matches
no catch clause and unwinds into the managed runtime. -/
def Adapter.invoke {β : Type} (dflt : β) : TryOutcome β → InvokeOutcome β
  | .ok v pending => .returned v pending
  | .javaExc inner _pending => .returned dflt (some inner)
  | .stdExc message pending => .returned dflt (exception_handler pending message)
  | .otherExc => .unwound

/-- The message of the std::logic_error raised by MemberAdapter::invoke when
the stored native pointer is null (binding.hpp line 131). -/
def memberDisposedMsg (cls : String) : String :=
  "Object " ++ cls ++ " has already been disposed of."

/-- Model of MemberAdapter::invoke (binding.hpp lines 121-152).  The Java
object's nativePointer field holds either a native object address or zero
(modelled as none).  On a null handle the adapter throws std::logic_error,
which its own catch (std::exception) clause immediately funnels through
exception_handler; the native member function (the call argument) is only
ever reached through a non-null handle. -/
def MemberAdapter.invoke {β : Type} (cls : String) (dflt : β) (pending : Pending)
    (handle : Option Nat) (call : Nat → TryOutcome β) : InvokeOutcome β :=
  match handle with
  | none => .returned dflt (exception_handler pending (memberDisposedMsg cls))
  | some addr =>
    match call addr with
    | .ok v p => .returned v p
    | .javaExc inner _p => .returned dflt (some inner)
    | .stdExc message p => .returned dflt (exception_handler p message)
    | .otherExc => .unwound

/-- Model of DestroyObjectAdapter::invoke (binding.hpp lines 214-233): read
the nativePointer field, delete the native object (deleting a null pointer
is a no-op), then zero the field.  The native heap is modelled as the list
of live addresses. -/
def DestroyObjectAdapter.invoke (heap : List Nat) (handle : Option Nat) :
    List Nat × Option Nat :=
  match handle with
  | none => (heap, none)
  | some addr => (heap.erase addr, none)

/-! ### Registration builders and registries (binding.hpp)

The three process-wide registries are std::map instances keyed by strings;
they are modelled as association lists with std::map::emplace semantics
(emplace inserts only if the key is absent and reports whether it inserted).
Registration runs inside the user initializer, before any load-time
resolution: the builder operations below do not touch the managed runtime
at all. -/

def lookupA {α β : Type} [DecidableEq α] : List (α × β) → α → Option β
  | [], _ => none
  | (k, v) :: rest, key => if key = k then some v else lookupA rest key

/-- std::map::emplace / std::unordered_map::emplace: insert only if the key
is not already present; the first insertion wins. -/
def emplaceA {α β : Type} [DecidableEq α] (m : List (α × β)) (key : α) (v : β) :
    List (α × β) :=
  match lookupA m key with
  | some _ => m
  | none => m ++ [(key, v)]

/-- One entry of FunctionBindings::value (binding.hpp lines 247-254), minus
the erased entry-point pointer and display strings, which the load model
does not inspect. -/
structure FunctionBinding where
  name : String
  signature : String
  is_member : Bool
deriving DecidableEq, Repr

/-- The per-enum-class registration state: the EnumBinding name list kept in
EnumBindings::value (binding.hpp lines 400-435, add deduplicates) together
with the EnumValues<T>::bindings map from native enumerator value to Java
constant name (part_005 lines 42-49, emplace keeps the first binding). -/
structure EnumRegistration where
  names : List String
  bindings : List (Int × String)
deriving DecidableEq, Repr

/-- Snapshot of the three process-wide registries: FunctionBindings::value
(class name → function bindings), FieldBindings::value (record type
signature → list of (field name, field signature)), and EnumBindings::value
(class name → enum registration). -/
structure Registries where
  functionBindings : List (String × List FunctionBinding)
  fieldBindings : List (String × List (String × String))
  enumBindings : List (String × EnumRegistration)
deriving Repr

def Registries.empty : Registries := ⟨[], [], []⟩

/-- Model of the record_class<T> constructor (binding.hpp lines 36-42):
emplace an empty field-binding list under the record type signature; a
failed emplace raises std::runtime_error. -/
def record_class_init (r : Registries) (sigKey clsName : String) :
    Except String Registries :=
  match lookupA r.fieldBindings sigKey with
  | some _ =>
    .error ("Record class '" ++ clsName ++ "' is defined more than once in C++ code")
  | none =>
    .ok { r with fieldBindings := r.fieldBindings ++ [(sigKey, [])] }

/-- Model of record_class<T>::field (binding.hpp lines 47-67): append one
field binding to the list registered for the record's signature. -/
def record_class_field (r : Registries) (sigKey fieldName fieldSig : String) :
    Registries :=
  { r with fieldBindings :=
      r.fieldBindings.map fun p =>
        if p.1 = sigKey then (p.1, p.2 ++ [(fieldName, fieldSig)]) else p }

/-- Model of the static_class<T> constructor (binding.hpp lines 266-272):
emplace an empty function-binding list under the class name; a failed
emplace raises std::runtime_error. -/
def static_class_init (r : Registries) (clsName : String) :
    Except String Registries :=
  match lookupA r.functionBindings clsName with
  | some _ =>
    .error ("Static class '" ++ clsName ++ "' is defined more than once in C++ code")
  | none =>
    .ok { r with functionBindings := r.functionBindings ++ [(clsName, [])] }

/-- Model of the native_class<T> constructor (binding.hpp lines 308-326):
emplace a function-binding list under the class name and push the implicit
member binding for close(); a failed emplace raises std::runtime_error. -/
def native_class_init (r : Registries) (clsName : String) :
    Except String Registries :=
  match lookupA r.functionBindings clsName with
  | some _ =>
    .error ("Native class '" ++ clsName ++ "' is defined more than once in C++ code")
  | none =>
    .ok { r with functionBindings :=
            r.functionBindings ++ [(clsName, [⟨"close", "()V", true⟩])] }

/-- Model of the enum_class<T> constructor (binding.hpp lines 448-454):
emplace a fresh EnumBinding under the enum class name; a failed emplace
raises std::runtime_error. -/
def enum_class_init (r : Registries) (clsName : String) :
    Except String Registries :=
  match lookupA r.enumBindings clsName with
  | some _ =>
    .error ("Enum class '" ++ clsName ++ "' is defined more than once in C++ code")
  | none =>
    .ok { r with enumBindings := r.enumBindings ++ [(clsName, ⟨[], []⟩)] }

/-- Model of enum_class<T>::value (binding.hpp lines 456-461): add the Java
name to the EnumBinding name list (deduplicating, EnumBinding::add) and
record the native-value binding (EnumValues<T>::bind, part_005 line 48,
emplace keeps the first binding for a native value). -/
def enum_class_value (r : Registries) (clsName : String) (v : Int) (javaName : String) :
    Registries :=
  { r with enumBindings :=
      r.enumBindings.map fun p =>
        if p.1 = clsName then
          (p.1,
            { names := if javaName ∈ p.2.names then p.2.names else p.2.names ++ [javaName],
              bindings := emplaceA p.2.bindings v javaName })
        else p }

/-! ### Enum-value tables (part_005)

A Java enum constant object is observed through the two JNI calls the code
makes on it: name() and ordinal().  A constant is therefore modelled by that
pair; env->NewGlobalRef preserves identity, so the stored global reference
is the constant itself. -/

structure EnumConst where
  name : String
  ordinal : Int
deriving DecidableEq, Repr

/-- The two lookup tables EnumValues<T>::values_to_objects and
EnumValues<T>::ordinals_to_values (part_005 lines 43-44), populated by
EnumValues<T>::initialize at load time. -/
structure EnumTables where
  values_to_objects : List (Int × EnumConst)
  ordinals_to_values : List (Int × Int)
deriving DecidableEq, Repr

/-- Model of EnumValues<T>::initialize (part_005 lines 51-58): walk the
native-value → Java-name bindings, look each name up in the map collected
from the managed constants (values.at throws std::out_of_range on a missing
name, modelled as none), and emplace into the two lookup tables. -/
def initializeFrom (values : List (String × EnumConst)) :
    List (Int × String) → EnumTables → Option EnumTables
  | [], acc => some acc
  | (v, n) :: rest, acc =>
    match lookupA values n with
    | none => none
    | some c =>
      initializeFrom values rest
        ⟨emplaceA acc.values_to_objects v c,
         emplaceA acc.ordinals_to_values c.ordinal v⟩

/-- Model of the round trip through EnumClassJavaType (part_005 lines
84-106): java_value looks the native value up in values_to_objects (at
throws on a miss), native_value reads the constant object's ordinal and
looks it up in ordinals_to_values. -/
def enumRoundTrip (t : EnumTables) (v : Int) : Option Int :=
  match lookupA t.values_to_objects v with
  | none => none
  | some c => lookupA t.ordinals_to_values c.ordinal

/-! ### Wire-signature derivation (core.hpp, object.hpp, part_002)

The compile-time string machinery of string.hpp (join_v, replace_v) becomes
ordinary string concatenation and character replacement. -/

/-- Model of replace_v (part_009 lines 75-102) and of the load routine's
std::replace of dots by slashes. -/
def replaceChar (s : String) (o n : Char) : String :=
  String.mk (s.data.map fun c => if c = o then n else c)

/-- The object-type signature grammar of ObjectJavaType (part_001 lines
38-47): join_v of "L", the class path and ";". -/
def objectSig (path : String) : String := "L" ++ path ++ ";"

/-- The non-bool, non-floating integral primitive types of the catalog
(core.hpp).  bool is treated separately because vector of bool has its own
converter; float and double are omitted from the value universe (their
conversions are the same identity static_cast). -/
inductive PrimTy
| pbyte
| pchar
| pshort
| pint
| plong
deriving DecidableEq, Repr

/-- Wire signatures of the primitive catalog entries (core.hpp: JavaByteType
"B", JavaCharacterType "C", JavaShortType "S", JavaIntegerType "I",
JavaLongType "J"). -/
def PrimTy.sig : PrimTy → String
  | .pbyte => "B"
  | .pchar => "C"
  | .pshort => "S"
  | .pint => "I"
  | .plong => "J"

/-- Boxed class names of the primitive catalog entries (core.hpp
class_name members). -/
def PrimTy.class_name : PrimTy → String
  | .pbyte => "java.lang.Byte"
  | .pchar => "java.lang.Character"
  | .pshort => "java.lang.Short"
  | .pint => "java.lang.Integer"
  | .plong => "java.lang.Long"

mutual

/-- The native types of the marshaling catalog that the round-trip and
signature claims range over.  An enum type carries the lookup tables its
converter consults after load; a record type carries its registered field
bindings (name and component type, in registration order). -/
inductive MTy
| boolean
| prim (p : PrimTy)
| str
| arr (elem : MTy)
| boolarr
| opt (elem : MTy)
| jmap (k v : MTy)
| jrecord (clsName : String) (fields : FieldTyList)
| jenum (clsName : String) (tables : EnumTables)

inductive FieldTyList
| nil
| cons (name : String) (t : MTy) (rest : FieldTyList)

end

/-- Class names as declared by ClassTraits / the catalog's class_name
members.  JavaArrayType declares no class_name (arrays are not object-class
types), modelled by the empty string; ClassTraits of std::optional forwards
to the element type (optional.hpp line 21); ClassTraits of std::map declares
"java.util.Map" (part_002 line 235). -/
def classNameOf : MTy → String
  | .boolean => "java.lang.Boolean"
  | .prim p => p.class_name
  | .str => "java.lang.String"
  | .arr _ => ""
  | .boolarr => ""
  | .opt t => classNameOf t
  | .jmap _ _ => "java.util.Map"
  | .jrecord cls _ => cls
  | .jenum cls _ => cls

/-- Compile-time wire signature of each catalog type:
JavaBooleanType::sig = "Z"; primitive sigs per core.hpp; JavaStringType::sig;
JavaArrayType::sig = join_v of "[" and the element signature (core.hpp line
620 / type.hpp line 506); JavaBooleanArrayType::sig = "[Z"; object types go
through ObjectJavaType: "L" ++ replace_v of class_name ++ ";". -/
def sigOf : MTy → String
  | .boolean => "Z"
  | .prim p => p.sig
  | .str => "Ljava/lang/String;"
  | .arr t => "[" ++ sigOf t
  | .boolarr => "[Z"
  | .opt t => objectSig (replaceChar (classNameOf t) '.' '/')
  | .jmap _ _ => objectSig (replaceChar "java.util.Map" '.' '/')
  | .jrecord cls _ => objectSig (replaceChar cls '.' '/')
  | .jenum cls _ => objectSig (replaceChar cls '.' '/')

/-- The concrete collection class path registered for std::map of K, V:
ClassTraits concrete_class_path = "java/util/TreeMap" (part_002 line 238),
used by JavaMapType::java_value to instantiate the collection. -/
def concreteClassPathOf : MTy → Option String
  | .jmap _ _ => some "java/util/TreeMap"
  | _ => none

/-! ### Marshaled values

Native values and boundary (Java) values, by observable content.  A Java
reference is modelled by what the JNI accessors used in the converters can
observe of it; null is a distinguished value. -/

mutual

inductive NVal
| nbool (b : Bool)
| nint (p : PrimTy) (i : Int)
| nstr (s : String)
| narr (p : PrimTy) (xs : List Int)
| nboolarr (bs : List Bool)
| noptNone
| noptSome (v : NVal)
| nrecord (fields : NFieldList)
| nenum (v : Int)

inductive NFieldList
| nil
| cons (name : String) (v : NVal) (rest : NFieldList)

end

mutual

inductive JVal
| jnull
| jbool (b : Bool)
| jint (p : PrimTy) (i : Int)
| jstr (s : String)
| jarr (p : PrimTy) (xs : List Int)
| jboolarr (bs : List Bool)
| jbox (a : JVal)
| jobject (fields : JFieldList)
| jenumconst (c : EnumConst)

inductive JFieldList
| fnil
| fcons (name : String) (v : JVal) (rest : JFieldList)

end

/-- Field access on a Java object: GetFieldID by name followed by the typed
Get<Type>Field (first declaration wins). -/
def lookupF : JFieldList → String → Option JVal
  | .fnil, _ => none
  | .fcons name v rest, n => if n = name then some v else lookupF rest n

mutual

/-- Conversion from a native value to its boundary representation,
mirroring each converter's java_value (and, for record members, the
java_set_field_value accessors, which delegate to the same conversions):

* primitives: identity static_cast (PrimitiveJavaType, core.hpp 69-72);
* strings: NewStringUTF of the UTF-8 buffer (core.hpp 531-534);
* primitive arrays: New<Prim>Array plus Set<Prim>ArrayRegion copy
  (core.hpp java_array_value members); vector of bool via the critical
  copy loop of JavaBooleanArrayType (core.hpp 667-687);
* optionals: absent maps to null, present recurses into the boxed_t
  converter, which boxes arithmetic element types via valueOf
  (optional.hpp 41-45, part_002 line 23, core.hpp JavaBoxedType 487-496);
* records: AllocObject then one java_set_field_value per registered field
  binding, in registration order (record.hpp 68-82); the model identifies
  a record value with the tuple of its registered fields;
* enums: values_to_objects.at of the native value; a missing key throws
  (part_005 99-106), modelled as none.

None models a conversion that cannot return normally (it throws). -/
def javaValue : MTy → NVal → Option JVal
  | .boolean, .nbool b => some (.jbool b)
  | .prim p, .nint q i => if q = p then some (.jint p i) else none
  | .str, .nstr s => some (.jstr s)
  | .arr (.prim p), .narr q xs => if q = p then some (.jarr p xs) else none
  | .boolarr, .nboolarr bs => some (.jboolarr bs)
  | .opt _, .noptNone => some .jnull
  | .opt t, .noptSome v =>
    match t with
    | .boolean => (javaValue .boolean v).map .jbox
    | .prim p => (javaValue (.prim p) v).map .jbox
    | t2 => javaValue t2 v
  | .jrecord _ fl, .nrecord vfl => (javaFields fl vfl).map .jobject
  | .jenum _ tables, .nenum v => (lookupA tables.values_to_objects v).map .jenumconst
  | _, _ => none

/-- Conversion of a record's registered fields: each binding writes the
member through its arg_type's java_set_field_value into the freshly
allocated object, in registration order. -/
def javaFields : FieldTyList → NFieldList → Option JFieldList
  | .nil, .nil => some .fnil
  | .cons n t fl, .cons n2 v vfl =>
    if n2 = n then
      match javaValue t v, javaFields fl vfl with
      | some jv, some jfl => some (.fcons n jv jfl)
      | _, _ => none
    else none
  | _, _ => none

end

theorem sizeOf_lookupF : (jfl : JFieldList) → (n : String) → (jv : JVal) →
    lookupF jfl n = some jv → sizeOf jv < sizeOf jfl
  | .fnil, _, _, h => by simp [lookupF] at h
  | .fcons name v rest, n, jv, h => by
    by_cases hn : n = name
    · subst hn
      simp [lookupF] at h
      subst h
      simp
      omega
    · simp only [lookupF, if_neg hn] at h
      have := sizeOf_lookupF rest n jv h
      simp
      omega

mutual

/-- Conversion from a boundary value back to a native value, mirroring each
converter's native_value (and native_field_value accessors):

* primitives: identity static_cast (core.hpp 64-67);
* strings: GetStringUTFLength plus GetStringUTFRegion (core.hpp 520-529);
* primitive arrays: GetArrayLength plus native_array_value region copy
  (core.hpp 622-628), vector of bool via the critical read loop;
* optionals: null maps to absent, otherwise recurse into the boxed_t
  converter, which unboxes arithmetic element types via the Value call
  (optional.hpp 35-39, core.hpp JavaBoxedType 473-482);
* records: default-construct then one set_by_value per registered field
  binding, each reading the Java field looked up by name and signature
  (record.hpp 55-66); a missing field throws (local.hpp Field);
* enums: read the constant's ordinal, then ordinals_to_values.at
  (part_005 84-97); a missing key throws, modelled as none. -/
def nativeValue : MTy → JVal → Option NVal
  | .boolean, .jbool b => some (.nbool b)
  | .prim p, .jint q i => if q = p then some (.nint p i) else none
  | .str, .jstr s => some (.nstr s)
  | .arr (.prim p), .jarr q xs => if q = p then some (.narr p xs) else none
  | .boolarr, .jboolarr bs => some (.nboolarr bs)
  | .opt _, .jnull => some .noptNone
  | .opt t, jv =>
    match t, jv with
    | .boolean, .jbox a => (nativeValue .boolean a).map .noptSome
    | .prim p, .jbox a => (nativeValue (.prim p) a).map .noptSome
    | .boolean, _ => none
    | .prim _, _ => none
    | t2, jv2 => (nativeValue t2 jv2).map .noptSome
  | .jrecord _ fl, .jobject jfl => (nativeFields fl jfl).map .nrecord
  | .jenum _ tables, .jenumconst c => (lookupA tables.ordinals_to_values c.ordinal).map .nenum
  | _, _ => none

/-- Reading a record back: RecordClassJavaType::native_value walks the
registered bindings in order; each set_by_value looks the Java field up by
name and converts it into the corresponding member. -/
def nativeFields : FieldTyList → JFieldList → Option NFieldList
  | .nil, _ => some .nil
  | .cons n t fl, jfl =>
    match lookupF jfl n with
    | none => none
    | some jv =>
      match nativeValue t jv, nativeFields fl jfl with
      | some v, some vfl => some (.cons n v vfl)
      | _, _ => none

end

/-! ### The module load routine (javabind.hpp: java_initialization_impl)

The managed runtime visible to the load routine is an oracle: which class
paths resolve, what RegisterNatives returns per class, which fields and
methods exist, and what the values() call of an enum class returns.  The
enum constants of a class are given as the array elements in order, each
observed through its name() and ordinal() calls; a none element models a
null array slot. -/

structure JavaWorld where
  findClass : String → Bool
  registerNativesCode : String → Int
  hasField : String → String → String → Bool
  hasStaticMethod : String → String → String → Bool
  hasMethod : String → String → String → Bool
  valuesArray : String → Option (List (Option EnumConst))

/-- Observable events of the load sequence: a successful bulk
RegisterNatives call for a function-binding class, one GetFieldID
validation of a registered record field, and the start of the enum-binding
resolution of one enum class. -/
inductive LoadEvent
| registered (cls : String)
| fieldChecked (cls : String) (name : String) (sig : String)
| enumChecked (cls : String)
deriving DecidableEq, Repr

/-- Outcome of one phase of the load loop: an early return with a status
code, or fall-through, together with the pending-exception state and the
events the phase performed. -/
structure PhaseOut where
  earlyReturn : Option Int
  pending : Pending
  events : List LoadEvent
deriving Repr

def msgFnClassMissing (cls : String) : String :=
  "Cannot find Java class '" ++ cls ++ "' registered as a native class in C++ code"

def msgRecordClassMissing (cls : String) : String :=
  "Cannot find Java record class '" ++ cls ++ "' registered as a plain data class in C++ code"

def msgFieldMissing (cls fieldName fieldSig : String) : String :=
  "Cannot find field '" ++ fieldName ++ "' with type signature '" ++ fieldSig ++
    "' in registered class '" ++ cls ++ "'"

def msgEnumClassMissing (cls : String) : String :=
  "Cannot find Java class '" ++ cls ++ "' registered as an enum class in C++ code"

/-- The source builds this message without a closing quote after the class
name (javabind.hpp line 203). -/
def msgValuesMissing (cls vsig : String) : String :=
  "Cannot find static method 'values' with signature '" ++ vsig ++
    "' in registered enum class '" ++ cls

def msgOrdinalMissing (cls : String) : String :=
  "Cannot find method 'ordinal' with signature '()I' in enum value of class '" ++ cls ++ "'"

def msgNameMissing (cls : String) : String :=
  "Cannot find method 'name' with signature '()Ljava/lang/String;' in enum value of class '" ++
    cls ++ "'"

def msgValuesNull (cls vsig : String) : String :=
  "Static method 'values' with signature '" ++ vsig ++ "' in registered enum class '" ++
    cls ++ "' returned null"

def msgElementNull (i : Nat) (cls : String) : String :=
  "Element " ++ toString i ++ " of static method 'values' in enum class '" ++
    cls ++ "' returned null"

def msgEnumValueUnregistered (valueName cls : String) : String :=
  "Enum value '" ++ valueName ++ "' in class '" ++ cls ++ "' is not registered in C++ code"

/-- The what() text of the std::out_of_range that unordered_map::at raises
inside EnumValues::initialize; its exact wording is implementation-defined
and no theorem below depends on it. -/
def outOfRangeMsg : String := "unordered_map::at: key not found"

/-- The signature string the load routine builds for the values() lookup:
"()[L" ++ class path ++ ";" (javabind.hpp line 199). -/
def valuesSigOf (cn : String) : String := "()[L" ++ cn ++ ";"

/-- Phase 1 of the load (javabind.hpp lines 129-155): for each
function-binding class, replace dots by slashes, FindClass (nothrow), on a
null result throw_exception and return JNI_ERR; otherwise RegisterNatives
all bindings of the class in one call and return its code if it is not
JNI_OK. -/
def registerFunctionClasses (w : JavaWorld) (pending : Pending) :
    List (String × List FunctionBinding) → PhaseOut
  | [] => ⟨none, pending, []⟩
  | (clsName, _bnds) :: rest =>
    let cn := replaceChar clsName '.' '/'
    if w.findClass cn then
      let rc := w.registerNativesCode cn
      if rc = JNI_OK then
        let out := registerFunctionClasses w pending rest
        ⟨out.earlyReturn, out.pending, LoadEvent.registered clsName :: out.events⟩
      else ⟨some rc, pending, []⟩
    else
      ⟨some JNI_ERR, throw_exception pending (msgFnClassMissing clsName), []⟩

/-- The inner loop of phase 2 (javabind.hpp lines 172-183): GetFieldID for
each registered field of one record class; a null result throws a
descriptive exception and returns JNI_ERR. -/
def checkFields (w : JavaWorld) (pending : Pending) (clsKey : String) :
    List (String × String) → PhaseOut
  | [] => ⟨none, pending, []⟩
  | (n, s) :: rest =>
    if w.hasField clsKey n s then
      let out := checkFields w pending clsKey rest
      ⟨out.earlyReturn, out.pending, LoadEvent.fieldChecked clsKey n s :: out.events⟩
    else
      ⟨some JNI_ERR, throw_exception pending (msgFieldMissing clsKey n s),
       [LoadEvent.fieldChecked clsKey n s]⟩

/-- Phase 2 of the load (javabind.hpp lines 162-184): for each record class
key, FindClass (nothrow, on the stored key, no separator replacement); on a
null result throw_exception and return JNI_ERR; otherwise validate every
registered field. -/
def checkFieldBindings (w : JavaWorld) (pending : Pending) :
    List (String × List (String × String)) → PhaseOut
  | [] => ⟨none, pending, []⟩
  | (clsKey, bnds) :: rest =>
    if w.findClass clsKey then
      let out1 := checkFields w pending clsKey bnds
      match out1.earlyReturn with
      | some c => ⟨some c, out1.pending, out1.events⟩
      | none =>
        let out2 := checkFieldBindings w out1.pending rest
        ⟨out2.earlyReturn, out2.pending, out1.events ++ out2.events⟩
    else
      ⟨some JNI_ERR, throw_exception pending (msgRecordClassMissing clsKey), []⟩

/-- The constant-scanning loop of phase 3 (javabind.hpp lines 234-254):
walk the values() array; a null element fails; each constant's name must be
contained in the registered EnumBinding name list; the constants are
collected into the name-keyed unordered_map passed to initialize. -/
def collectEnumValues (clsName : String) (names : List String) (i : Nat) :
    List (Option EnumConst) → List (String × EnumConst) →
    Except String (List (String × EnumConst))
  | [], acc => .ok acc
  | none :: _, _ => .error (msgElementNull i clsName)
  | some c :: rest, acc =>
    if c.name ∈ names then
      collectEnumValues clsName names (i + 1) rest (emplaceA acc c.name c)
    else .error (msgEnumValueUnregistered c.name clsName)

/-- Phase 3 of the load for one enum class (javabind.hpp lines 187-256):
resolve the class (dots replaced by slashes), the values/ordinal/name
methods, call values(), scan the constants, then run
EnumValues::initialize; the std::out_of_range that initialize can raise
escapes to the outer catch clause, which also produces JNI_ERR.  Every
failing step returns JNI_ERR after throw_exception with its message, so the
resolution is factored into this error-or-tables core. -/
def enumClassResolve (w : JavaWorld) (clsName : String) (reg : EnumRegistration) :
    Except String EnumTables :=
  let cn := replaceChar clsName '.' '/'
  if w.findClass cn then
    let vsig := valuesSigOf cn
    if w.hasStaticMethod cn "values" vsig then
      if w.hasMethod cn "ordinal" "()I" then
        if w.hasMethod cn "name" "()Ljava/lang/String;" then
          match w.valuesArray cn with
          | none => .error (msgValuesNull clsName vsig)
          | some arr =>
            match collectEnumValues clsName reg.names 0 arr [] with
            | .error m => .error m
            | .ok values =>
              match initializeFrom values reg.bindings ⟨[], []⟩ with
              | none => .error outOfRangeMsg
              | some tables => .ok tables
        else .error (msgNameMissing clsName)
      else .error (msgOrdinalMissing clsName)
    else .error (msgValuesMissing clsName (valuesSigOf cn))
  else .error (msgEnumClassMissing clsName)

/-- The per-class step of phase 3 as it appears in the load loop: an error
throws the descriptive exception and returns JNI_ERR, success installs the
populated tables. -/
def initializeEnumClass (w : JavaWorld) (pending : Pending) (clsName : String)
    (reg : EnumRegistration) : PhaseOut × Option EnumTables :=
  match enumClassResolve w clsName reg with
  | .error m =>
    (⟨some JNI_ERR, throw_exception pending m, [LoadEvent.enumChecked clsName]⟩, none)
  | .ok tables =>
    (⟨none, pending, [LoadEvent.enumChecked clsName]⟩, some tables)

/-- Phase 3 of the load over all registered enum classes, collecting the
populated lookup tables. -/
def initializeEnumBindings (w : JavaWorld) (pending : Pending) :
    List (String × EnumRegistration) → PhaseOut × List (String × EnumTables)
  | [] => (⟨none, pending, []⟩, [])
  | (clsName, reg) :: rest =>
    let r1 := initializeEnumClass w pending clsName reg
    match r1.1.earlyReturn with
    | some c => (⟨some c, r1.1.pending, r1.1.events⟩, [])
    | none =>
      let r2 := initializeEnumBindings w r1.1.pending rest
      (⟨r2.1.earlyReturn, r2.1.pending, r1.1.events ++ r2.1.events⟩,
       (match r1.2 with
        | some t => [(clsName, t)]
        | none => []) ++ r2.2)

/-- The full result of the load routine: the returned status code, the
pending-exception state, the performed events, and the enum lookup tables
populated (nonempty only on a fully successful load). -/
structure LoadResult where
  status : Int
  pending : Pending
  events : List LoadEvent
  enumTables : List (String × EnumTables)
deriving Repr

/-- Model of java_initialization_impl (javabind.hpp lines 87-265).

getEnvRc is the result of vm->GetEnv for the loading thread;
initializerOutcome is the result of running the user-supplied registration
code (an error models a thrown std::exception with its what() message,
caught by the outer catch clause); callbackPending is the
pending-exception state after the CallbackRegistry step, whose result code
the source computes but never checks before overwriting it. -/
def loadPhases (w : JavaWorld) (callbackPending : Pending) (regs : Registries) :
    LoadResult :=
  let out1 := registerFunctionClasses w callbackPending regs.functionBindings
  match out1.earlyReturn with
  | some c => ⟨c, out1.pending, out1.events, []⟩
  | none =>
    if out1.pending.isSome then ⟨JNI_ERR, out1.pending, out1.events, []⟩
    else
      let out2 := checkFieldBindings w out1.pending regs.fieldBindings
      match out2.earlyReturn with
      | some c => ⟨c, out2.pending, out1.events ++ out2.events, []⟩
      | none =>
        let r3 := initializeEnumBindings w out2.pending regs.enumBindings
        match r3.1.earlyReturn with
        | some c => ⟨c, r3.1.pending, out1.events ++ out2.events ++ r3.1.events, []⟩
        | none =>
          ⟨JNI_VERSION_1_6, r3.1.pending,
           out1.events ++ out2.events ++ r3.1.events, r3.2⟩

def java_initialization_impl (w : JavaWorld) (getEnvRc : Int)
    (callbackPending : Pending) (initializerOutcome : Except String Registries) :
    LoadResult :=
  if getEnvRc ≠ JNI_OK then ⟨getEnvRc, none, [], []⟩
  else
    match initializerOutcome with
    | .error m => ⟨JNI_ERR, throw_exception none m, [], []⟩
    | .ok regs => loadPhases w callbackPending regs

/-! ### Thread environments and global-reference release (global.hpp)

The virtual machine's view of the current thread: whether the requested JNI
version is supported, the environment handle valid for the current thread
if the thread is attached, and the handle AttachCurrentThread would produce
(none if attaching fails). -/

structure VmState where
  versionOk : Bool
  threadEnv : Option Nat
  attachEnv : Option Nat
deriving DecidableEq, Repr

/-- The thread_local Environment object of the current thread (global.hpp
lines 90-94): the cached JNIEnv pointer and the flag recording that this
library attached the thread. -/
structure ThreadLocalEnv where
  env : Option Nat
  attached : Bool
deriving DecidableEq, Repr

/-- Model of Environment::getEnv (global.hpp lines 49-75): return the
cached environment if present; otherwise ask the VM: JNI_OK caches and
returns the thread's environment; JNI_EDETACHED attaches the current
thread (marking it as attached by this library) or fails; JNI_EVERSION and
any other code fail.  Failure returns a null environment. -/
def Environment.getEnv (st : ThreadLocalEnv) (vm : VmState) :
    Option Nat × ThreadLocalEnv × VmState :=
  match st.env with
  | some e => (some e, st, vm)
  | none =>
    if vm.versionOk then
      match vm.threadEnv with
      | some e => (some e, { st with env := some e }, vm)
      | none =>
        match vm.attachEnv with
        | some e =>
          (some e, { env := some e, attached := true }, { vm with threadEnv := some e })
        | none => (none, st, vm)
    else (none, st, vm)

/-- What the shared-ownership deleter of a GlobalObjectRef does with the
global reference when the last owner drops it. -/
inductive ReleaseAction
| released (envUsed : Nat) (ref : Nat)
| leaked (ref : Nat)
deriving DecidableEq, Repr

/-- Model of the GlobalObjectRef deleter (global.hpp lines 111-119): obtain
an environment for the current thread via this_thread.getEnv(); call
DeleteGlobalRef only through a non-null environment, otherwise skip the
release entirely. -/
def GlobalObjectRef.release (st : ThreadLocalEnv) (vm : VmState) (ref : Nat) :
    ReleaseAction × ThreadLocalEnv × VmState :=
  match Environment.getEnv st vm with
  | (some e, st2, vm2) => (.released e ref, st2, vm2)
  | (none, st2, vm2) => (.leaked ref, st2, vm2)

/-! ### Typing and well-formedness for the round-trip law -/

/-- Whether std::is_arithmetic holds of the native type, which is what
boxed_t dispatches on (part_002 line 23). -/
def isArithmetic : MTy → Bool
  | .boolean => true
  | .prim _ => true
  | _ => false

/-- The registered field names of a record, in registration order. -/
def namesF : FieldTyList → List String
  | .nil => []
  | .cons n _ rest => n :: namesF rest

/-- Element types for which optional of the element type instantiates in
the source: the element's converter must expose a class_name for
ClassTraits of std::optional (optional.hpp lines 19-24), which holds for
the boxed primitives, strings, records and enums.  A nested optional also
instantiates in the source; it is excluded here because its round trip
fails (see the corrected claim). -/
def optElemOk : MTy → Prop
  | .boolean => True
  | .prim _ => True
  | .str => True
  | .jrecord _ _ => True
  | .jenum _ _ => True
  | _ => False

/-- Component types a record field can have: every catalog type with
field accessors (native_field_value and java_set_field_value).
RecordClassJavaType itself has none, so records do not nest; the
collection converters are outside this universe. -/
def fieldElemOk : MTy → Prop
  | .jrecord _ _ => False
  | .jmap _ _ => False
  | _ => True

/-- Lookup tables that arose from EnumValues::initialize applied to a
well-formed registration: the collected constants map has distinct names
and distinct ordinals (as Java guarantees of an enum's values()), and the
native bindings carry distinct native values and distinct Java names. -/
def EnumTablesWf (t : EnumTables) : Prop :=
  ∃ (bnd : List (Int × String)) (values : List (String × EnumConst)),
    (values.map Prod.fst).Nodup ∧
    (values.map fun p => (p.2).ordinal).Nodup ∧
    (bnd.map Prod.fst).Nodup ∧
    (bnd.map Prod.snd).Nodup ∧
    initializeFrom values bnd ⟨[], []⟩ = some t

mutual

/-- Typing of a native value at a catalog type, mirroring the static C++
types: a value of an enum type must be a registered enumerator (its
converter looks it up in values_to_objects). -/
def hasTy : MTy → NVal → Prop
  | .boolean, .nbool _ => True
  | .prim p, .nint q _ => q = p
  | .str, .nstr _ => True
  | .arr (.prim p), .narr q _ => q = p
  | .boolarr, .nboolarr _ => True
  | .opt _, .noptNone => True
  | .opt t, .noptSome v => hasTy t v
  | .jrecord _ fl, .nrecord vfl => hasTyFields fl vfl
  | .jenum _ tables, .nenum v => (lookupA tables.values_to_objects v).isSome = true
  | _, _ => False

def hasTyFields : FieldTyList → NFieldList → Prop
  | .nil, .nil => True
  | .cons n t fl, .cons n2 v vfl => n2 = n ∧ hasTy t v ∧ hasTyFields fl vfl
  | _, _ => False

end

mutual

/-- Well-formedness of a catalog type for the round-trip law: array
converters exist for arithmetic elements; optionals wrap the element types
for which the source instantiates them, excluding nested optionals; record
field names are distinct and their types are field-capable; enum tables
come from a well-formed load. -/
def WfTy : MTy → Prop
  | .boolean => True
  | .prim _ => True
  | .str => True
  | .arr (.prim _) => True
  | .arr _ => False
  | .boolarr => True
  | .opt t => optElemOk t ∧ WfTy t
  | .jmap _ _ => False
  | .jrecord _ fl => (namesF fl).Nodup ∧ WfFields fl
  | .jenum _ tables => EnumTablesWf tables

def WfFields : FieldTyList → Prop
  | .nil => True
  | .cons _ t fl => fieldElemOk t ∧ WfTy t ∧ WfFields fl

end

/-- Validation events are the field checks and enum-class resolutions of
load phases 2 and 3 (the checks claim C1 requires to happen only after all
function-binding classes resolved). -/
def LoadEvent.isValidation : LoadEvent → Bool
  | .registered _ => false
  | .fieldChecked _ _ _ => true
  | .enumChecked _ => true

/-! ### Concrete instances used by counterexamples and witnesses -/

/-- A managed runtime in which every lookup succeeds and the only enum
class has a single constant A with ordinal 0. -/
def wDupEnum : JavaWorld :=
  { findClass := fun _ => true
    registerNativesCode := fun _ => 0
    hasField := fun _ _ _ => true
    hasStaticMethod := fun _ _ _ => true
    hasMethod := fun _ _ _ => true
    valuesArray := fun _ => some [some ⟨"A", 0⟩] }

/-- The registry state produced by registering the enum class
com.example.Color and binding both native values 0 and 1 to the Java
constant name A (enum_class builder calls; see regsDupEnum_built). -/
def regsDupEnum : Registries :=
  { functionBindings := []
    fieldBindings := []
    enumBindings := [("com.example.Color", ⟨["A"], [(0, "A"), (1, "A")]⟩)] }

/-- The enum lookup tables the duplicate-name registration produces at
load time: both native values map to the single constant object, while the
ordinal table kept only the first binding. -/
def colorTables : EnumTables :=
  ⟨[(0, ⟨"A", 0⟩), (1, ⟨"A", 0⟩)], [(0, 0)]⟩

/-- A managed runtime in which no class resolves. -/
def wNothing : JavaWorld :=
  { findClass := fun _ => false
    registerNativesCode := fun _ => 0
    hasField := fun _ _ _ => false
    hasStaticMethod := fun _ _ _ => false
    hasMethod := fun _ _ _ => false
    valuesArray := fun _ => none }

/-- A registry with one function-binding class, one record class with one
field, and one enum class. -/
def regsOneOfEach : Registries :=
  { functionBindings := [("com.example.Sample", [⟨"close", "()V", true⟩])]
    fieldBindings := [("Lcom/example/Rect;", [("width", "D")])]
    enumBindings := [("com.example.Color", ⟨["A"], [(0, "A")]⟩)] }

/-- A managed runtime that resolves every class and registers natives
successfully but has no field named width on the record class. -/
def wNoField : JavaWorld :=
  { findClass := fun _ => true
    registerNativesCode := fun _ => 0
    hasField := fun _ _ _ => false
    hasStaticMethod := fun _ _ _ => true
    hasMethod := fun _ _ _ => true
    valuesArray := fun _ => some [some ⟨"A", 0⟩] }

/-! ### Association-list lemmas -/

theorem lookupA_append {α β : Type} [DecidableEq α] (l1 l2 : List (α × β)) (k : α) :
    lookupA (l1 ++ l2) k =
      match lookupA l1 k with
      | some v => some v
      | none => lookupA l2 k := by
  induction l1 with
  | nil => simp [lookupA]
  | cons p rest ih =>
    obtain ⟨k2, v2⟩ := p
    by_cases h : k = k2 <;> simp [lookupA, h, ih]

theorem lookupA_mem {α β : Type} [DecidableEq α] :
    ∀ (l : List (α × β)) (k : α) (v : β), lookupA l k = some v → (k, v) ∈ l
  | [], _, _, h => by simp [lookupA] at h
  | (k2, v2) :: rest, k, v, h => by
    by_cases hk : k = k2
    · subst hk
      simp [lookupA] at h
      subst h
      simp
    · simp [lookupA, hk] at h
      exact List.mem_cons_of_mem _ (lookupA_mem rest k v h)

theorem lookupA_none_of_not_mem {α β : Type} [DecidableEq α] :
    ∀ (l : List (α × β)) (k : α), k ∉ l.map Prod.fst → lookupA l k = none
  | [], _, _ => rfl
  | (k2, v2) :: rest, k, h => by
    have hk : k ≠ k2 := by
      intro he
      exact h (by simp [he])
    simp only [lookupA, if_neg hk]
    exact lookupA_none_of_not_mem rest k (by
      intro hm
      exact h (by simp; right; simpa using hm))

theorem mem_of_lookupA_isSome {α β : Type} [DecidableEq α]
    (l : List (α × β)) (k : α) (h : (lookupA l k).isSome) : k ∈ l.map Prod.fst := by
  by_contra hk
  rw [lookupA_none_of_not_mem l k hk] at h
  simp at h

theorem emplaceA_of_none {α β : Type} [DecidableEq α] {m : List (α × β)} {key : α}
    (v : β) (h : lookupA m key = none) : emplaceA m key v = m ++ [(key, v)] := by
  simp [emplaceA, h]

theorem lookupA_emplaceA_preserved {α β : Type} [DecidableEq α] {m : List (α × β)}
    {k : α} {x : β} (key : α) (v : β) (h : lookupA m k = some x) :
    lookupA (emplaceA m key v) k = some x := by
  unfold emplaceA
  cases hkey : lookupA m key with
  | some _ => exact h
  | none =>
    rw [lookupA_append]
    rw [h]

theorem lookupA_append_single_self {α β : Type} [DecidableEq α] {m : List (α × β)}
    {key : α} (v : β) (h : lookupA m key = none) :
    lookupA (m ++ [(key, v)]) key = some v := by
  rw [lookupA_append, h]
  simp [lookupA]

/-! ### Claim theorems and their supporting lemmas follow. -/

/-- C2 counterexample: a native exception that is not derived from
std::exception (here the try-block outcome otherExc, e.g. a thrown int)
matches neither catch clause of Adapter::invoke and unwinds into the
managed runtime's call frames, contrary to the claim that no native
exception, including an unrecognized exception type, is ever allowed to
unwind. -/
theorem adapter_unrecognized_exception_unwinds :
    Adapter.invoke (0 : Int) TryOutcome.otherExc = InvokeOutcome.unwound := rfl

/-- C2 (amended): for every trampoline invocation whose try block does not
exit with an exception outside the std::exception hierarchy, control
returns to the managed caller: a boundary-originated JavaException is
re-thrown as the original Java throwable and the trampoline returns the
default-constructed result; any other exception derived from
std::exception is surfaced through exception_handler — as a
java.lang.Exception carrying the native message when no Java exception is
already pending — with the default-constructed result; a normal result is
passed through. -/
theorem adapter_translates_exceptions {β : Type} (dflt : β) (b : TryOutcome β)
    (h : b ≠ TryOutcome.otherExc) :
    (∃ v p, Adapter.invoke dflt b = .returned v p) ∧
    (∀ t p0, b = .javaExc t p0 → Adapter.invoke dflt b = .returned dflt (some t)) ∧
    (∀ m p0, b = .stdExc m p0 →
      Adapter.invoke dflt b = .returned dflt (exception_handler p0 m) ∧
      (p0 = none →
        Adapter.invoke dflt b =
          .returned dflt (some (Throwable.exc "java/lang/Exception" m)))) ∧
    (∀ v p0, b = .ok v p0 → Adapter.invoke dflt b = .returned v p0) := by
  cases b with
  | ok v p =>
    refine ⟨⟨v, p, rfl⟩, ?_, ?_, ?_⟩
    · intro t2 p0 h2
      cases h2
    · intro m2 p0 h2
      cases h2
    · intro v2 p2 h2
      cases h2
      rfl
  | javaExc t p =>
    refine ⟨⟨dflt, some t, rfl⟩, ?_, ?_, ?_⟩
    · intro t2 p0 h2
      cases h2
      rfl
    · intro m2 p0 h2
      cases h2
    · intro v2 p2 h2
      cases h2
  | stdExc m p =>
    refine ⟨⟨dflt, exception_handler p m, rfl⟩, ?_, ?_, ?_⟩
    · intro t2 p0 h2
      cases h2
    · intro m2 p0 h2
      cases h2
      exact ⟨rfl, fun hp => by subst hp; rfl⟩
    · intro v2 p2 h2
      cases h2
  | otherExc => exact absurd rfl h

/-- C2 witness: a concrete std::runtime_error-style failure is translated
into a returned default and a pending java.lang.Exception. -/
theorem adapter_translates_exceptions_witness :
    ∃ v p, Adapter.invoke (0 : Int) (TryOutcome.stdExc "conversion failed" none) =
      InvokeOutcome.returned v p :=
  (adapter_translates_exceptions 0 (TryOutcome.stdExc "conversion failed" none)
    (by simp)).1

/-- C7: after DestroyObjectAdapter::invoke runs, the stored handle is
zeroed; a second destruction observes the null handle and frees nothing;
and any member trampoline invoked on the disposed object returns the
default-constructed result with a pending java.lang.Exception carrying the
descriptive disposed-of message, without ever dispatching through the
dangling pointer (the outcome is the same for every possible native
callee). -/
theorem disposed_object_guard {β : Type} (heap : List Nat) (handle : Option Nat)
    (cls : String) (dflt : β) :
    (DestroyObjectAdapter.invoke heap handle).2 = none ∧
    (DestroyObjectAdapter.invoke (DestroyObjectAdapter.invoke heap handle).1
        (DestroyObjectAdapter.invoke heap handle).2 =
      ((DestroyObjectAdapter.invoke heap handle).1, none)) ∧
    (∀ call : Nat → TryOutcome β,
      MemberAdapter.invoke cls dflt none (DestroyObjectAdapter.invoke heap handle).2 call =
        InvokeOutcome.returned dflt
          (some (Throwable.exc "java/lang/Exception" (memberDisposedMsg cls)))) := by
  cases handle <;>
    exact ⟨rfl, rfl, fun _ => rfl⟩

/-- C5 counterexample: the wire signature the catalog derives for a
std::map of int32 keys to string values is the object signature of the
interface class path java/util/Map, not the registered concrete-class path
java/util/TreeMap, so the claim that the wire signature matches the
registered concrete-class path is false. -/
theorem map_sig_is_not_concrete_path :
    concreteClassPathOf (MTy.jmap (MTy.prim PrimTy.pint) MTy.str) = some "java/util/TreeMap" ∧
    sigOf (MTy.jmap (MTy.prim PrimTy.pint) MTy.str) = "Ljava/util/Map;" ∧
    sigOf (MTy.jmap (MTy.prim PrimTy.pint) MTy.str) ≠ objectSig "java/util/TreeMap" ∧
    sigOf (MTy.jmap (MTy.prim PrimTy.pint) MTy.str) ≠ "java/util/TreeMap" := by
  refine ⟨rfl, ?_, ?_, ?_⟩ <;> decide

/-- C5 (amended): for every element type the array wire signature is "["
concatenated with the element signature, so nested arrays derive
compositionally; the wire signature of a map is the object signature of
the registered interface class path java/util/Map regardless of the key
and value types, while the converter instantiates the registered
concrete-class path java/util/TreeMap, likewise independent of them. -/
theorem array_sig_compositional :
    (∀ t, sigOf (MTy.arr t) = "[" ++ sigOf t) ∧
    sigOf (MTy.arr (MTy.arr (MTy.prim PrimTy.pint))) =
      "[" ++ sigOf (MTy.arr (MTy.prim PrimTy.pint)) ∧
    (∀ k v, sigOf (MTy.jmap k v) = objectSig (replaceChar "java.util.Map" '.' '/') ∧
      sigOf (MTy.jmap k v) = "Ljava/util/Map;" ∧
      concreteClassPathOf (MTy.jmap k v) = some "java/util/TreeMap") := by
  refine ⟨fun t => rfl, rfl, fun k v => ⟨rfl, ?_, rfl⟩⟩
  rw [show sigOf (MTy.jmap k v) = objectSig (replaceChar "java.util.Map" '.' '/') from rfl]
  decide

/-- C6: each registration builder raises its duplicate-registration logic
error synchronously at the second registration of the same key, during
user registration code and independent of any load-time resolution (none
of these operations consults the managed runtime). -/
theorem duplicate_registration_rejected :
    (∀ r sigKey clsName r2, record_class_init r sigKey clsName = Except.ok r2 →
      record_class_init r2 sigKey clsName =
        Except.error ("Record class '" ++ clsName ++ "' is defined more than once in C++ code")) ∧
    (∀ r clsName r2, static_class_init r clsName = Except.ok r2 →
      static_class_init r2 clsName =
        Except.error ("Static class '" ++ clsName ++ "' is defined more than once in C++ code")) ∧
    (∀ r clsName r2, native_class_init r clsName = Except.ok r2 →
      native_class_init r2 clsName =
        Except.error ("Native class '" ++ clsName ++ "' is defined more than once in C++ code")) ∧
    (∀ r clsName r2, enum_class_init r clsName = Except.ok r2 →
      enum_class_init r2 clsName =
        Except.error ("Enum class '" ++ clsName ++ "' is defined more than once in C++ code")) := by
  refine ⟨?_, ?_, ?_, ?_⟩
  · intro r sigKey clsName r2 h
    unfold record_class_init at h
    cases hl : lookupA r.fieldBindings sigKey with
    | some _ =>
      rw [hl] at h
      cases h
    | none =>
      rw [hl] at h
      cases h
      unfold record_class_init
      rw [lookupA_append_single_self [] hl]
  · intro r clsName r2 h
    unfold static_class_init at h
    cases hl : lookupA r.functionBindings clsName with
    | some _ =>
      rw [hl] at h
      cases h
    | none =>
      rw [hl] at h
      cases h
      unfold static_class_init
      rw [lookupA_append_single_self [] hl]
  · intro r clsName r2 h
    unfold native_class_init at h
    cases hl : lookupA r.functionBindings clsName with
    | some _ =>
      rw [hl] at h
      cases h
    | none =>
      rw [hl] at h
      cases h
      unfold native_class_init
      rw [lookupA_append_single_self [⟨"close", "()V", true⟩] hl]
  · intro r clsName r2 h
    unfold enum_class_init at h
    cases hl : lookupA r.enumBindings clsName with
    | some _ =>
      rw [hl] at h
      cases h
    | none =>
      rw [hl] at h
      cases h
      unfold enum_class_init
      rw [lookupA_append_single_self ⟨[], []⟩ hl]

/-- C6 witness: registering the record class a second time over the
registry state the first registration produced raises the duplicate
error. -/
theorem duplicate_registration_rejected_witness :
    record_class_init ⟨[], [("Lcom/example/Rect;", [])], []⟩ "Lcom/example/Rect;"
        "com.example.Rect" =
      Except.error "Record class 'com.example.Rect' is defined more than once in C++ code" :=
  duplicate_registration_rejected.1 Registries.empty "Lcom/example/Rect;" "com.example.Rect"
    ⟨[], [("Lcom/example/Rect;", [])], []⟩ rfl

/-- C10: when the last shared owner of a GlobalObjectRef drops it, the
deleter obtains an environment through this_thread.getEnv; whenever it
releases, the environment it uses is the one valid for the current thread
afterwards (including the case where getEnv had to attach a never-attached
thread, which is recorded so the thread can be detached later); and if no
valid environment can be obtained the DeleteGlobalRef call is skipped and
the reference is leaked.  The hypothesis is the thread-local cache
invariant: a cached environment is the current thread's valid one. -/
theorem global_release_thread_valid (st : ThreadLocalEnv) (vm : VmState) (ref : Nat)
    (hinv : ∀ e, st.env = some e → vm.threadEnv = some e) :
    (∀ e x, (GlobalObjectRef.release st vm ref).1 = ReleaseAction.released e x →
      x = ref ∧ (GlobalObjectRef.release st vm ref).2.2.threadEnv = some e) ∧
    ((Environment.getEnv st vm).1 = none →
      (GlobalObjectRef.release st vm ref).1 = ReleaseAction.leaked ref) ∧
    (st.env = none → vm.versionOk = true → vm.threadEnv = none →
      ∀ e, vm.attachEnv = some e →
        (GlobalObjectRef.release st vm ref).1 = ReleaseAction.released e ref ∧
        (GlobalObjectRef.release st vm ref).2.1.attached = true ∧
        (GlobalObjectRef.release st vm ref).2.2.threadEnv = some e) := by
  obtain ⟨env0, att⟩ := st
  obtain ⟨vok, tenv, aenv⟩ := vm
  cases env0 with
  | some e0 =>
    have hte := hinv e0 rfl
    subst hte
    refine ⟨?_, ?_, ?_⟩
    · intro e x h
      simp [GlobalObjectRef.release, Environment.getEnv] at h
      obtain ⟨he, hx⟩ := h
      subst he
      subst hx
      exact ⟨rfl, rfl⟩
    · intro h
      simp [Environment.getEnv] at h
    · intro h
      cases h
  | none =>
    cases vok with
    | false =>
      refine ⟨?_, ?_, ?_⟩
      · intro e x h
        simp [GlobalObjectRef.release, Environment.getEnv] at h
      · intro _
        simp [GlobalObjectRef.release, Environment.getEnv]
      · intro _ h
        cases h
    | true =>
      cases tenv with
      | some e1 =>
        refine ⟨?_, ?_, ?_⟩
        · intro e x h
          simp [GlobalObjectRef.release, Environment.getEnv] at h
          obtain ⟨he, hx⟩ := h
          subst he
          subst hx
          exact ⟨rfl, rfl⟩
        · intro h
          simp [Environment.getEnv] at h
        · intro _ _ h
          cases h
      | none =>
        cases aenv with
        | some e2 =>
          refine ⟨?_, ?_, ?_⟩
          · intro e x h
            simp [GlobalObjectRef.release, Environment.getEnv] at h
            obtain ⟨he, hx⟩ := h
            subst he
            subst hx
            exact ⟨rfl, rfl⟩
          · intro h
            simp [Environment.getEnv] at h
          · intro _ _ _ e he
            cases he
            exact ⟨rfl, rfl, rfl⟩
        | none =>
          refine ⟨?_, ?_, ?_⟩
          · intro e x h
            simp [GlobalObjectRef.release, Environment.getEnv] at h
          · intro _
            simp [GlobalObjectRef.release, Environment.getEnv]
          · intro _ _ _ e he
            cases he

/-- C10 witness: on a detached thread with a working AttachCurrentThread,
the deleter attaches, records the attachment, and releases through the
newly valid environment. -/
theorem global_release_thread_valid_witness :
    (GlobalObjectRef.release ⟨none, false⟩ ⟨true, none, some 7⟩ 42).1 =
      ReleaseAction.released 7 42 ∧
    (GlobalObjectRef.release ⟨none, false⟩ ⟨true, none, some 7⟩ 42).2.1.attached = true := by
  have h := global_release_thread_valid ⟨none, false⟩ ⟨true, none, some 7⟩ 42
    (by intro e he; cases he)
  have h3 := h.2.2 rfl rfl rfl 7 rfl
  exact ⟨h3.1, h3.2.1⟩

/-- C4: JavaOptionalType maps an absent optional to the null reference and
a null reference back to the absent optional, for every element type; a
present value recurses into the wrapped element's converter, boxed exactly
when the element type is arithmetic (boxed_t), and a boxed boundary value
is unboxed back through the element's converter. -/
theorem optional_null_absence_law :
    (∀ t, javaValue (MTy.opt t) NVal.noptNone = some JVal.jnull) ∧
    (∀ t, nativeValue (MTy.opt t) JVal.jnull = some NVal.noptNone) ∧
    (∀ t v, isArithmetic t = true →
      javaValue (MTy.opt t) (NVal.noptSome v) = (javaValue t v).map JVal.jbox) ∧
    (∀ t v, isArithmetic t = false →
      javaValue (MTy.opt t) (NVal.noptSome v) = javaValue t v) ∧
    (∀ t a, isArithmetic t = true →
      nativeValue (MTy.opt t) (JVal.jbox a) = (nativeValue t a).map NVal.noptSome) := by
  refine ⟨?_, ?_, ?_, ?_, ?_⟩
  · intro t
    cases t <;> rfl
  · intro t
    cases t <;> rfl
  · intro t v h
    cases t <;> first | rfl | simp [isArithmetic] at h
  · intro t v h
    cases t <;> first | rfl | simp [isArithmetic] at h
  · intro t a h
    cases t <;> first | rfl | simp [isArithmetic] at h

/-- C4 witness: the null and boxing laws at the element type int32. -/
theorem optional_null_absence_law_witness :
    javaValue (MTy.opt (MTy.prim PrimTy.pint)) NVal.noptNone = some JVal.jnull ∧
    nativeValue (MTy.opt (MTy.prim PrimTy.pint)) JVal.jnull = some NVal.noptNone ∧
    javaValue (MTy.opt (MTy.prim PrimTy.pint)) (NVal.noptSome (NVal.nint PrimTy.pint 82)) =
      (javaValue (MTy.prim PrimTy.pint) (NVal.nint PrimTy.pint 82)).map JVal.jbox :=
  ⟨optional_null_absence_law.1 (MTy.prim PrimTy.pint),
   optional_null_absence_law.2.1 (MTy.prim PrimTy.pint),
   optional_null_absence_law.2.2.1 (MTy.prim PrimTy.pint) (NVal.nint PrimTy.pint 82) rfl⟩

/-! ### Load-phase lemmas -/

theorem registerFunctionClasses_ok_all (w : JavaWorld) (p : Pending) :
    ∀ l, (registerFunctionClasses w p l).earlyReturn = none →
      ∀ q ∈ l, w.findClass (replaceChar q.1 '.' '/') = true ∧
        w.registerNativesCode (replaceChar q.1 '.' '/') = JNI_OK
  | [], _, q, hq => by simp at hq
  | (cls, b) :: rest, h, q, hq => by
    by_cases hf : w.findClass (replaceChar cls '.' '/')
    · by_cases hr : w.registerNativesCode (replaceChar cls '.' '/') = JNI_OK
      · simp only [registerFunctionClasses, if_pos hf, if_pos hr] at h
        rcases List.mem_cons.mp hq with hq1 | hq2
        · subst hq1
          exact ⟨hf, hr⟩
        · exact registerFunctionClasses_ok_all w p rest h q hq2
      · simp [registerFunctionClasses, hf, hr] at h
    · simp [registerFunctionClasses, hf] at h

theorem registerFunctionClasses_fail_code (w : JavaWorld) (p : Pending) :
    ∀ l c, (registerFunctionClasses w p l).earlyReturn = some c →
      c = JNI_ERR ∨ ∃ cn, c = w.registerNativesCode cn ∧ w.registerNativesCode cn ≠ JNI_OK
  | [], c, h => by simp [registerFunctionClasses] at h
  | (cls, b) :: rest, c, h => by
    by_cases hf : w.findClass (replaceChar cls '.' '/')
    · by_cases hr : w.registerNativesCode (replaceChar cls '.' '/') = JNI_OK
      · simp only [registerFunctionClasses, if_pos hf, if_pos hr] at h
        exact registerFunctionClasses_fail_code w p rest c h
      · simp only [registerFunctionClasses, if_pos hf, if_neg hr, Option.some.injEq] at h
        exact Or.inr ⟨replaceChar cls '.' '/', h.symm, hr⟩
    · simp only [registerFunctionClasses, if_neg hf, Option.some.injEq] at h
      exact Or.inl h.symm

theorem registerFunctionClasses_events (w : JavaWorld) (p : Pending) :
    ∀ l, ∀ e ∈ (registerFunctionClasses w p l).events, e.isValidation = false
  | [], e, he => by simp [registerFunctionClasses] at he
  | (cls, b) :: rest, e, he => by
    by_cases hf : w.findClass (replaceChar cls '.' '/')
    · by_cases hr : w.registerNativesCode (replaceChar cls '.' '/') = JNI_OK
      · simp only [registerFunctionClasses, if_pos hf, if_pos hr, List.mem_cons] at he
        rcases he with he1 | he2
        · subst he1
          rfl
        · exact registerFunctionClasses_events w p rest e he2
      · simp [registerFunctionClasses, hf, hr] at he
    · simp [registerFunctionClasses, hf] at he

theorem registerFunctionClasses_all_ok (w : JavaWorld) (p : Pending) :
    ∀ l, (∀ q ∈ l, w.findClass (replaceChar q.1 '.' '/') = true ∧
        w.registerNativesCode (replaceChar q.1 '.' '/') = JNI_OK) →
      registerFunctionClasses w p l =
        ⟨none, p, l.map fun q => LoadEvent.registered q.1⟩
  | [], _ => rfl
  | (cls, b) :: rest, h => by
    have hhead := h (cls, b) (List.mem_cons_self _ _)
    have htail := fun q hq => h q (List.mem_cons_of_mem _ hq)
    simp only [registerFunctionClasses, if_pos hhead.1, if_pos hhead.2,
      registerFunctionClasses_all_ok w p rest htail]
    rfl

theorem checkFields_all_ok (w : JavaWorld) (p : Pending) (cls : String) :
    ∀ bnds, (∀ fs ∈ bnds, w.hasField cls fs.1 fs.2 = true) →
      checkFields w p cls bnds =
        ⟨none, p, bnds.map fun fs => LoadEvent.fieldChecked cls fs.1 fs.2⟩
  | [], _ => rfl
  | (n, s) :: rest, h => by
    have hhead := h (n, s) (List.mem_cons_self _ _)
    have htail := fun fs hfs => h fs (List.mem_cons_of_mem _ hfs)
    simp only [checkFields, if_pos hhead, checkFields_all_ok w p cls rest htail]
    rfl

theorem checkFields_fail (w : JavaWorld) (p : Pending) (cls : String) :
    ∀ bnds, (∃ fs ∈ bnds, w.hasField cls fs.1 fs.2 = false) →
      ∃ n s, (n, s) ∈ bnds ∧ w.hasField cls n s = false ∧
        (checkFields w p cls bnds).earlyReturn = some JNI_ERR ∧
        (checkFields w p cls bnds).pending =
          some (Throwable.exc "java/lang/Exception" (msgFieldMissing cls n s))
  | [], h => by simp at h
  | (n0, s0) :: rest, h => by
    by_cases hh : w.hasField cls n0 s0
    · have hrest : ∃ fs ∈ rest, w.hasField cls fs.1 fs.2 = false := by
        rcases h with ⟨fs, hfs, hval⟩
        rcases List.mem_cons.mp hfs with h1 | h2
        · subst h1
          rw [hh] at hval
          cases hval
        · exact ⟨fs, h2, hval⟩
      obtain ⟨n, s, hmem, hval, hret, hpend⟩ := checkFields_fail w p cls rest hrest
      refine ⟨n, s, List.mem_cons_of_mem _ hmem, hval, ?_, ?_⟩
      · simp only [checkFields, if_pos hh]
        exact hret
      · simp only [checkFields, if_pos hh]
        exact hpend
    · refine ⟨n0, s0, List.mem_cons_self _ _, by simpa using hh, ?_, ?_⟩
      · simp only [checkFields, if_neg hh]
      · simp only [checkFields, if_neg hh]
        rfl

theorem checkFieldBindings_fail (w : JavaWorld) :
    ∀ l (p : Pending),
      (∃ q ∈ l, w.findClass q.1 = false ∨ ∃ fs ∈ q.2, w.hasField q.1 fs.1 fs.2 = false) →
      (checkFieldBindings w p l).earlyReturn = some JNI_ERR ∧
      ((∃ cls bnds, (cls, bnds) ∈ l ∧ w.findClass cls = false ∧
          (checkFieldBindings w p l).pending =
            some (Throwable.exc "java/lang/Exception" (msgRecordClassMissing cls))) ∨
       (∃ cls bnds n s, (cls, bnds) ∈ l ∧ (n, s) ∈ bnds ∧ w.hasField cls n s = false ∧
          (checkFieldBindings w p l).pending =
            some (Throwable.exc "java/lang/Exception" (msgFieldMissing cls n s))))
  | [], p, h => by simp at h
  | (cls0, bnds0) :: rest, p, h => by
    by_cases hf : w.findClass cls0
    · by_cases hbad : ∃ fs ∈ bnds0, w.hasField cls0 fs.1 fs.2 = false
      · obtain ⟨n, s, hmem, hval, hret, hpend⟩ := checkFields_fail w p cls0 bnds0 hbad
        constructor
        · simp only [checkFieldBindings, if_pos hf, hret]
        · right
          refine ⟨cls0, bnds0, n, s, List.mem_cons_self _ _, hmem, hval, ?_⟩
          simp only [checkFieldBindings, if_pos hf, hret]
          exact hpend
      · have hall : ∀ fs ∈ bnds0, w.hasField cls0 fs.1 fs.2 = true := by
          intro fs hfs
          by_contra hcon
          exact hbad ⟨fs, hfs, by simpa using hcon⟩
        have hrest : ∃ q ∈ rest, w.findClass q.1 = false ∨
            ∃ fs ∈ q.2, w.hasField q.1 fs.1 fs.2 = false := by
          rcases h with ⟨q, hq, hqval⟩
          rcases List.mem_cons.mp hq with h1 | h2
          · subst h1
            rcases hqval with h3 | h3
            · rw [hf] at h3
              cases h3
            · exact absurd h3 hbad
          · exact ⟨q, h2, hqval⟩
        have ih := checkFieldBindings_fail w rest p hrest
        have hck := checkFields_all_ok w p cls0 bnds0 hall
        constructor
        · simp only [checkFieldBindings, if_pos hf, hck]
          exact ih.1
        · rcases ih.2 with ⟨cls, bnds, hmem, hval, hpend⟩ | ⟨cls, bnds, n, s, hmem, hmem2, hval, hpend⟩
          · left
            refine ⟨cls, bnds, List.mem_cons_of_mem _ hmem, hval, ?_⟩
            simp only [checkFieldBindings, if_pos hf, hck]
            exact hpend
          · right
            refine ⟨cls, bnds, n, s, List.mem_cons_of_mem _ hmem, hmem2, hval, ?_⟩
            simp only [checkFieldBindings, if_pos hf, hck]
            exact hpend
    · constructor
      · simp only [checkFieldBindings, if_neg hf]
      · left
        refine ⟨cls0, bnds0, List.mem_cons_self _ _, by simpa using hf, ?_⟩
        simp only [checkFieldBindings, if_neg hf]
        rfl

/-- C1: if any class registered for function bindings cannot be located by
name (after the dotted path is converted to slashes), or its bulk
RegisterNatives call returns a non-OK code, the load routine returns a
failure status code immediately: the result is not the success version
code, it is non-positive (given the JNI contract that RegisterNatives
returns a non-positive code), and no record-field validation or
enum-binding validation event has been performed.  getEnv has succeeded
and the user initializer ran normally. -/
theorem java_initialization_impl_ok (w : JavaWorld) (cb : Pending) (regs : Registries) :
    java_initialization_impl w JNI_OK cb (Except.ok regs) = loadPhases w cb regs := rfl

theorem loadPhases_abort1 (w : JavaWorld) (cb : Pending) (regs : Registries) (c : Int)
    (h : (registerFunctionClasses w cb regs.functionBindings).earlyReturn = some c) :
    loadPhases w cb regs =
      ⟨c, (registerFunctionClasses w cb regs.functionBindings).pending,
       (registerFunctionClasses w cb regs.functionBindings).events, []⟩ := by
  simp only [loadPhases, h]

theorem loadPhases_excheck (w : JavaWorld) (cb : Pending) (regs : Registries)
    (h1 : (registerFunctionClasses w cb regs.functionBindings).earlyReturn = none)
    (h2 : (registerFunctionClasses w cb regs.functionBindings).pending.isSome = true) :
    loadPhases w cb regs =
      ⟨JNI_ERR, (registerFunctionClasses w cb regs.functionBindings).pending,
       (registerFunctionClasses w cb regs.functionBindings).events, []⟩ := by
  simp only [loadPhases, h1, h2, if_true]

theorem loadPhases_abort2 (w : JavaWorld) (cb : Pending) (regs : Registries) (c : Int)
    (h1 : (registerFunctionClasses w cb regs.functionBindings).earlyReturn = none)
    (h2 : (registerFunctionClasses w cb regs.functionBindings).pending.isSome = false)
    (h3 : (checkFieldBindings w (registerFunctionClasses w cb regs.functionBindings).pending
        regs.fieldBindings).earlyReturn = some c) :
    loadPhases w cb regs =
      ⟨c,
       (checkFieldBindings w (registerFunctionClasses w cb regs.functionBindings).pending
          regs.fieldBindings).pending,
       (registerFunctionClasses w cb regs.functionBindings).events ++
         (checkFieldBindings w (registerFunctionClasses w cb regs.functionBindings).pending
            regs.fieldBindings).events, []⟩ := by
  simp only [loadPhases, h1, h2, h3, Bool.false_eq_true, if_false]

theorem loadPhases_abort3 (w : JavaWorld) (cb : Pending) (regs : Registries) (c : Int)
    (h1 : (registerFunctionClasses w cb regs.functionBindings).earlyReturn = none)
    (h2 : (registerFunctionClasses w cb regs.functionBindings).pending.isSome = false)
    (h3 : (checkFieldBindings w (registerFunctionClasses w cb regs.functionBindings).pending
        regs.fieldBindings).earlyReturn = none)
    (h4 : (initializeEnumBindings w
        (checkFieldBindings w (registerFunctionClasses w cb regs.functionBindings).pending
          regs.fieldBindings).pending regs.enumBindings).1.earlyReturn = some c) :
    loadPhases w cb regs =
      ⟨c,
       (initializeEnumBindings w
          (checkFieldBindings w (registerFunctionClasses w cb regs.functionBindings).pending
            regs.fieldBindings).pending regs.enumBindings).1.pending,
       (registerFunctionClasses w cb regs.functionBindings).events ++
         (checkFieldBindings w (registerFunctionClasses w cb regs.functionBindings).pending
            regs.fieldBindings).events ++
         (initializeEnumBindings w
            (checkFieldBindings w (registerFunctionClasses w cb regs.functionBindings).pending
              regs.fieldBindings).pending regs.enumBindings).1.events, []⟩ := by
  simp only [loadPhases, h1, h2, h3, h4, Bool.false_eq_true, if_false]

theorem loadPhases_success (w : JavaWorld) (cb : Pending) (regs : Registries)
    (h1 : (registerFunctionClasses w cb regs.functionBindings).earlyReturn = none)
    (h2 : (registerFunctionClasses w cb regs.functionBindings).pending.isSome = false)
    (h3 : (checkFieldBindings w (registerFunctionClasses w cb regs.functionBindings).pending
        regs.fieldBindings).earlyReturn = none)
    (h4 : (initializeEnumBindings w
        (checkFieldBindings w (registerFunctionClasses w cb regs.functionBindings).pending
          regs.fieldBindings).pending regs.enumBindings).1.earlyReturn = none) :
    loadPhases w cb regs =
      ⟨JNI_VERSION_1_6,
       (initializeEnumBindings w
          (checkFieldBindings w (registerFunctionClasses w cb regs.functionBindings).pending
            regs.fieldBindings).pending regs.enumBindings).1.pending,
       (registerFunctionClasses w cb regs.functionBindings).events ++
         (checkFieldBindings w (registerFunctionClasses w cb regs.functionBindings).pending
            regs.fieldBindings).events ++
         (initializeEnumBindings w
            (checkFieldBindings w (registerFunctionClasses w cb regs.functionBindings).pending
              regs.fieldBindings).pending regs.enumBindings).1.events,
       (initializeEnumBindings w
          (checkFieldBindings w (registerFunctionClasses w cb regs.functionBindings).pending
            regs.fieldBindings).pending regs.enumBindings).2⟩ := by
  simp only [loadPhases, h1, h2, h3, h4, Bool.false_eq_true, if_false]

theorem load_aborts_before_validation (w : JavaWorld) (cb : Pending) (regs : Registries)
    (hrc : ∀ cn, w.registerNativesCode cn ≤ 0)
    (hfail : ∃ q ∈ regs.functionBindings,
      w.findClass (replaceChar q.1 '.' '/') = false ∨
      w.registerNativesCode (replaceChar q.1 '.' '/') ≠ JNI_OK) :
    (java_initialization_impl w JNI_OK cb (Except.ok regs)).status ≤ 0 ∧
    (java_initialization_impl w JNI_OK cb (Except.ok regs)).status ≠ JNI_VERSION_1_6 ∧
    ∀ e ∈ (java_initialization_impl w JNI_OK cb (Except.ok regs)).events,
      e.isValidation = false := by
  have hnotnone : (registerFunctionClasses w cb regs.functionBindings).earlyReturn ≠ none := by
    intro hnone
    obtain ⟨q, hq, hval⟩ := hfail
    have := registerFunctionClasses_ok_all w cb regs.functionBindings hnone q hq
    rcases hval with h1 | h1
    · rw [this.1] at h1
      cases h1
    · exact h1 this.2
  cases hret : (registerFunctionClasses w cb regs.functionBindings).earlyReturn with
  | none => exact absurd hret hnotnone
  | some c =>
    have hcode := registerFunctionClasses_fail_code w cb regs.functionBindings c hret
    have hc0 : c ≤ 0 ∧ c ≠ JNI_VERSION_1_6 := by
      rcases hcode with h1 | ⟨cn, hcn, hne⟩
      · subst h1
        refine ⟨by norm_num [JNI_ERR], by norm_num [JNI_ERR, JNI_VERSION_1_6]⟩
      · subst hcn
        refine ⟨hrc cn, ?_⟩
        intro hcon
        have := hrc cn
        rw [hcon] at this
        norm_num [JNI_VERSION_1_6] at this
    have hres : java_initialization_impl w JNI_OK cb (Except.ok regs) =
        ⟨c, (registerFunctionClasses w cb regs.functionBindings).pending,
         (registerFunctionClasses w cb regs.functionBindings).events, []⟩ :=
      (java_initialization_impl_ok w cb regs).trans (loadPhases_abort1 w cb regs c hret)
    rw [hres]
    exact ⟨hc0.1, hc0.2,
      registerFunctionClasses_events w cb regs.functionBindings⟩

/-- C1 witness: a registry with one function-binding class loaded against
a runtime that resolves nothing returns a failure code with no validation
events. -/
theorem load_aborts_before_validation_witness :
    (java_initialization_impl wNothing JNI_OK none (Except.ok regsOneOfEach)).status ≠
      JNI_VERSION_1_6 ∧
    ∀ e ∈ (java_initialization_impl wNothing JNI_OK none (Except.ok regsOneOfEach)).events,
      e.isValidation = false := by
  have h := load_aborts_before_validation wNothing none regsOneOfEach
    (fun cn => by simp [wNothing])
    ⟨("com.example.Sample", [⟨"close", "()V", true⟩]), by simp [regsOneOfEach], Or.inl rfl⟩
  exact ⟨h.2.1, h.2.2⟩

/-- C8: when every function-binding class resolves and registers but a
registered record declares a field whose name and wire signature cannot be
found on the managed class — or the record class cannot be located at all —
the load returns JNI_ERR with a pending java.lang.Exception whose message
is exactly the source's text naming the missing field, its expected
signature and the class (or naming the missing record class). -/
theorem load_field_mismatch_fails (w : JavaWorld) (regs : Registries)
    (hfn : ∀ q ∈ regs.functionBindings,
      w.findClass (replaceChar q.1 '.' '/') = true ∧
      w.registerNativesCode (replaceChar q.1 '.' '/') = JNI_OK)
    (hmiss : ∃ q ∈ regs.fieldBindings,
      w.findClass q.1 = false ∨ ∃ fs ∈ q.2, w.hasField q.1 fs.1 fs.2 = false) :
    (java_initialization_impl w JNI_OK none (Except.ok regs)).status = JNI_ERR ∧
    ((∃ cls bnds, (cls, bnds) ∈ regs.fieldBindings ∧ w.findClass cls = false ∧
        (java_initialization_impl w JNI_OK none (Except.ok regs)).pending =
          some (Throwable.exc "java/lang/Exception" (msgRecordClassMissing cls))) ∨
     (∃ cls bnds fieldName fieldSig, (cls, bnds) ∈ regs.fieldBindings ∧
        (fieldName, fieldSig) ∈ bnds ∧ w.hasField cls fieldName fieldSig = false ∧
        (java_initialization_impl w JNI_OK none (Except.ok regs)).pending =
          some (Throwable.exc "java/lang/Exception"
            (msgFieldMissing cls fieldName fieldSig)))) := by
  have h1 := registerFunctionClasses_all_ok w none regs.functionBindings hfn
  have h2 := checkFieldBindings_fail w regs.fieldBindings none hmiss
  have e1 : (registerFunctionClasses w none regs.functionBindings).earlyReturn = none := by
    rw [h1]
  have e2 : (registerFunctionClasses w none regs.functionBindings).pending.isSome = false := by
    rw [h1]
    rfl
  have e3 : (registerFunctionClasses w none regs.functionBindings).pending = none := by
    rw [h1]
  have hck : (checkFieldBindings w
      (registerFunctionClasses w none regs.functionBindings).pending
      regs.fieldBindings).earlyReturn = some JNI_ERR := by
    rw [e3]
    exact h2.1
  have hres : java_initialization_impl w JNI_OK none (Except.ok regs) =
      ⟨JNI_ERR, (checkFieldBindings w none regs.fieldBindings).pending,
       (registerFunctionClasses w none regs.functionBindings).events ++
         (checkFieldBindings w none regs.fieldBindings).events, []⟩ := by
    rw [java_initialization_impl_ok, loadPhases_abort2 w none regs JNI_ERR e1 e2 hck, e3]
  rw [hres]
  refine ⟨rfl, ?_⟩
  rcases h2.2 with ⟨cls, bnds, hmem, hval, hpend⟩ | ⟨cls, bnds, n, s, hmem, hmem2, hval, hpend⟩
  · exact Or.inl ⟨cls, bnds, hmem, hval, hpend⟩
  · exact Or.inr ⟨cls, bnds, n, s, hmem, hmem2, hval, hpend⟩

/-- C8 witness: a record with a width field of signature D that the
managed class lacks fails the load with JNI_ERR. -/
theorem load_field_mismatch_fails_witness :
    (java_initialization_impl wNoField JNI_OK none (Except.ok regsOneOfEach)).status =
      JNI_ERR :=
  (load_field_mismatch_fails wNoField regsOneOfEach
    (fun q _ => ⟨rfl, rfl⟩)
    ⟨("Lcom/example/Rect;", [("width", "D")]), by simp [regsOneOfEach],
      Or.inr ⟨("width", "D"), by simp, rfl⟩⟩).1

/-! ### Enum-initialization lemmas -/

theorem emplaceA_mem {α β : Type} [DecidableEq α] {m : List (α × β)} {key : α} {x : β}
    {p : α × β} (h : p ∈ emplaceA m key x) : p ∈ m ∨ p = (key, x) := by
  unfold emplaceA at h
  cases hk : lookupA m key with
  | some _ =>
    rw [hk] at h
    exact Or.inl h
  | none =>
    rw [hk] at h
    rcases List.mem_append.mp h with h1 | h1
    · exact Or.inl h1
    · simp at h1
      exact Or.inr h1

theorem lookupA_emplaceA_isSome {α β : Type} [DecidableEq α] {m : List (α × β)}
    {key : α} {x : β} {k : α} (h : (lookupA (emplaceA m key x) k).isSome) :
    (lookupA m k).isSome ∨ k = key := by
  unfold emplaceA at h
  cases hk : lookupA m key with
  | some _ =>
    rw [hk] at h
    exact Or.inl h
  | none =>
    rw [hk, lookupA_append] at h
    cases hm : lookupA m k with
    | some _ => exact Or.inl (by simp [hm])
    | none =>
      rw [hm] at h
      by_cases hkk : k = key
      · exact Or.inr hkk
      · simp [lookupA, hkk] at h

theorem lookupA_ordinal_inj :
    ∀ (values : List (String × EnumConst)),
      ((values.map fun p => (p.2).ordinal).Nodup) →
      ∀ n1 n2 c1 c2, lookupA values n1 = some c1 → lookupA values n2 = some c2 →
        c1.ordinal = c2.ordinal → n1 = n2
  | [], _, n1, n2, c1, c2, h1, _, _ => by simp [lookupA] at h1
  | (k, c) :: rest, hnd, n1, n2, c1, c2, h1, h2, heq => by
    simp only [List.map_cons, List.nodup_cons] at hnd
    by_cases e1 : n1 = k <;> by_cases e2 : n2 = k
    · rw [e1, e2]
    · subst e1
      simp [lookupA] at h1
      subst h1
      simp only [lookupA, if_neg e2] at h2
      have hc2mem := lookupA_mem rest n2 c2 h2
      have hord : c2.ordinal ∈ rest.map fun p => (p.2).ordinal :=
        List.mem_map.mpr ⟨(n2, c2), hc2mem, rfl⟩
      rw [← heq] at hord
      exact absurd hord hnd.1
    · subst e2
      simp [lookupA] at h2
      subst h2
      simp only [lookupA, if_neg e1] at h1
      have hc1mem := lookupA_mem rest n1 c1 h1
      have hord : c1.ordinal ∈ rest.map fun p => (p.2).ordinal :=
        List.mem_map.mpr ⟨(n1, c1), hc1mem, rfl⟩
      rw [heq] at hord
      exact absurd hord hnd.1
    · simp only [lookupA, if_neg e1] at h1
      simp only [lookupA, if_neg e2] at h2
      exact lookupA_ordinal_inj rest hnd.2 n1 n2 c1 c2 h1 h2 heq

theorem initializeFrom_mono (values : List (String × EnumConst)) :
    ∀ (bnd : List (Int × String)) (acc final : EnumTables),
      initializeFrom values bnd acc = some final →
      (∀ k x, lookupA acc.values_to_objects k = some x →
        lookupA final.values_to_objects k = some x) ∧
      (∀ k x, lookupA acc.ordinals_to_values k = some x →
        lookupA final.ordinals_to_values k = some x)
  | [], acc, final, h => by
    simp only [initializeFrom, Option.some.injEq] at h
    subst h
    exact ⟨fun _ _ hx => hx, fun _ _ hx => hx⟩
  | (v, n) :: rest, acc, final, h => by
    simp only [initializeFrom] at h
    cases hc : lookupA values n with
    | none =>
      rw [hc] at h
      cases h
    | some c =>
      rw [hc] at h
      have ih := initializeFrom_mono values rest _ final h
      exact ⟨fun k x hx => ih.1 k x (lookupA_emplaceA_preserved v c hx),
             fun k x hx => ih.2 k x (lookupA_emplaceA_preserved c.ordinal v hx)⟩

theorem initializeFrom_keys (values : List (String × EnumConst)) :
    ∀ (bnd : List (Int × String)) (acc final : EnumTables),
      initializeFrom values bnd acc = some final →
      ∀ k, (lookupA final.values_to_objects k).isSome →
        (lookupA acc.values_to_objects k).isSome ∨ k ∈ bnd.map Prod.fst
  | [], acc, final, h, k, hk => by
    simp only [initializeFrom, Option.some.injEq] at h
    subst h
    exact Or.inl hk
  | (v, n) :: rest, acc, final, h, k, hk => by
    simp only [initializeFrom] at h
    cases hc : lookupA values n with
    | none =>
      rw [hc] at h
      cases h
    | some c =>
      rw [hc] at h
      rcases initializeFrom_keys values rest _ final h k hk with h1 | h1
      · rcases lookupA_emplaceA_isSome h1 with h2 | h2
        · exact Or.inl h2
        · exact Or.inr (by simp [h2])
      · exact Or.inr (by simp [h1])

theorem initializeFrom_values_used (values : List (String × EnumConst)) :
    ∀ (bnd : List (Int × String)) (acc final : EnumTables),
      initializeFrom values bnd acc = some final →
      ∀ p ∈ bnd, ∃ c, lookupA values p.2 = some c
  | [], _, _, _, p, hp => absurd hp (by simp)
  | (v, n) :: rest, acc, final, h, p, hp => by
    simp only [initializeFrom] at h
    cases hc : lookupA values n with
    | none =>
      rw [hc] at h
      cases h
    | some c =>
      rw [hc] at h
      rcases List.mem_cons.mp hp with h1 | h1
      · subst h1
        exact ⟨c, hc⟩
      · exact initializeFrom_values_used values rest _ final h p h1

theorem initializeFrom_lookups (values : List (String × EnumConst))
    (hvords : (values.map fun p => (p.2).ordinal).Nodup) :
    ∀ (bnd : List (Int × String)) (acc final : EnumTables),
      initializeFrom values bnd acc = some final →
      (bnd.map Prod.fst).Nodup →
      (bnd.map Prod.snd).Nodup →
      (∀ p ∈ bnd, lookupA acc.values_to_objects p.1 = none) →
      (∀ p c, p ∈ bnd → lookupA values p.2 = some c →
        lookupA acc.ordinals_to_values c.ordinal = none) →
      ∀ p ∈ bnd, ∃ c, lookupA values p.2 = some c ∧
        lookupA final.values_to_objects p.1 = some c ∧
        lookupA final.ordinals_to_values c.ordinal = some p.1
  | [], _, _, _, _, _, _, _ => fun p hp => absurd hp (by simp)
  | (v, n) :: rest, acc, final, h, hbk, hbn, hfr1, hfr2 => by
    simp only [initializeFrom] at h
    cases hc : lookupA values n with
    | none =>
      rw [hc] at h
      cases h
    | some c =>
      rw [hc] at h
      have hacc2v : lookupA acc.values_to_objects v = none :=
        hfr1 (v, n) (List.mem_cons_self _ _)
      have hacc2o : lookupA acc.ordinals_to_values c.ordinal = none :=
        hfr2 (v, n) c (List.mem_cons_self _ _) hc
      simp only [List.map_cons, List.nodup_cons] at hbk hbn
      have hfr1b : ∀ p ∈ rest,
          lookupA (emplaceA acc.values_to_objects v c) p.1 = none := by
        intro p hp
        rw [emplaceA_of_none c hacc2v, lookupA_append,
            hfr1 p (List.mem_cons_of_mem _ hp)]
        have hne : p.1 ≠ v := by
          intro he
          exact hbk.1 (he ▸ List.mem_map.mpr ⟨p, hp, rfl⟩)
        simp [lookupA, hne]
      have hfr2b : ∀ p c2, p ∈ rest → lookupA values p.2 = some c2 →
          lookupA (emplaceA acc.ordinals_to_values c.ordinal v) c2.ordinal = none := by
        intro p c2 hp hc2
        rw [emplaceA_of_none v hacc2o, lookupA_append,
            hfr2 p c2 (List.mem_cons_of_mem _ hp) hc2]
        have hne : c2.ordinal ≠ c.ordinal := by
          intro he
          have heq := lookupA_ordinal_inj values hvords p.2 n c2 c hc2 hc he
          exact hbn.1 (heq ▸ List.mem_map.mpr ⟨p, hp, rfl⟩)
        simp [lookupA, hne]
      have ih := initializeFrom_lookups values hvords rest _ final h hbk.2 hbn.2 hfr1b hfr2b
      intro p hp
      rcases List.mem_cons.mp hp with h1 | h1
      · subst h1
        refine ⟨c, hc, ?_, ?_⟩
        · have hstep : lookupA (emplaceA acc.values_to_objects v c) v = some c := by
            rw [emplaceA_of_none c hacc2v]
            exact lookupA_append_single_self c hacc2v
          exact (initializeFrom_mono values rest _ final h).1 v c hstep
        · have hstep : lookupA (emplaceA acc.ordinals_to_values c.ordinal v)
              c.ordinal = some v := by
            rw [emplaceA_of_none v hacc2o]
            exact lookupA_append_single_self v hacc2o
          exact (initializeFrom_mono values rest _ final h).2 c.ordinal v hstep
      · exact ih p h1

/-- Round trip over tables that arose from a well-formed initialize run:
looking a native value up in values_to_objects and the resulting constant's
ordinal up in ordinals_to_values returns the native value. -/
theorem enumTablesWf_roundtrip (t : EnumTables) (hwf : EnumTablesWf t) :
    ∀ v c, lookupA t.values_to_objects v = some c →
      lookupA t.ordinals_to_values c.ordinal = some v := by
  obtain ⟨bnd, values, _hvn, hvo, hbk, hbn, hinit⟩ := hwf
  intro v c hvc
  have hdom := initializeFrom_keys values bnd ⟨[], []⟩ t hinit v (by rw [hvc]; rfl)
  rcases hdom with h1 | h1
  · simp [lookupA] at h1
  · obtain ⟨p, hp, hpv⟩ := List.mem_map.mp h1
    obtain ⟨c2, _hc2, hvto, hotv⟩ :=
      initializeFrom_lookups values hvo bnd ⟨[], []⟩ t hinit hbk hbn
        (fun _ _ => rfl) (fun _ _ _ _ => rfl) p hp
    rw [hpv] at hvto hotv
    rw [hvc] at hvto
    cases hvto
    exact hotv

theorem collectEnumValues_ok_elements (cls : String) (names : List String) :
    ∀ (arr : List (Option EnumConst)) (i : Nat) acc values,
      collectEnumValues cls names i arr acc = Except.ok values →
      ∀ e ∈ arr, ∃ c, e = some c ∧ c.name ∈ names
  | [], _, _, _, _, e, he => absurd he (by simp)
  | none :: rest, i, acc, values, h, e, he => by
    simp [collectEnumValues] at h
  | some c :: rest, i, acc, values, h, e, he => by
    by_cases hn : c.name ∈ names
    · simp only [collectEnumValues, if_pos hn] at h
      rcases List.mem_cons.mp he with h1 | h1
      · exact ⟨c, h1, hn⟩
      · exact collectEnumValues_ok_elements cls names rest (i + 1) _ values h e h1
    · simp [collectEnumValues, hn] at h

theorem collectEnumValues_ok_entries (cls : String) (names : List String) :
    ∀ (arr : List (Option EnumConst)) (i : Nat) acc values,
      collectEnumValues cls names i arr acc = Except.ok values →
      ∀ p ∈ values, p ∈ acc ∨ ((some p.2) ∈ arr ∧ (p.2).name = p.1)
  | [], i, acc, values, h, p, hp => by
    simp only [collectEnumValues, Except.ok.injEq] at h
    subst h
    exact Or.inl hp
  | none :: rest, i, acc, values, h, p, hp => by
    simp [collectEnumValues] at h
  | some c :: rest, i, acc, values, h, p, hp => by
    by_cases hn : c.name ∈ names
    · simp only [collectEnumValues, if_pos hn] at h
      rcases collectEnumValues_ok_entries cls names rest (i + 1) _ values h p hp with h1 | h1
      · rcases emplaceA_mem h1 with h2 | h2
        · exact Or.inl h2
        · subst h2
          exact Or.inr ⟨by simp, rfl⟩
      · exact Or.inr ⟨List.mem_cons_of_mem _ h1.1, h1.2⟩
    · simp [collectEnumValues, hn] at h

theorem collectEnumValues_ok_eq (cls : String) (names : List String) :
    ∀ (arr : List (Option EnumConst)) (i : Nat) acc values,
      collectEnumValues cls names i arr acc = Except.ok values →
      (∀ c, (some c) ∈ arr → lookupA acc c.name = none) →
      ((arr.filterMap id).map EnumConst.name).Nodup →
      values = acc ++ (arr.filterMap id).map fun c => (c.name, c)
  | [], i, acc, values, h, _, _ => by
    simp only [collectEnumValues, Except.ok.injEq] at h
    subst h
    simp
  | none :: rest, i, acc, values, h, _, _ => by
    simp [collectEnumValues] at h
  | some c :: rest, i, acc, values, h, hfresh, hnd => by
    by_cases hn : c.name ∈ names
    · simp only [collectEnumValues, if_pos hn] at h
      have hc : lookupA acc c.name = none := hfresh c (by simp)
      have hnd2 : c.name ∉ (List.filterMap id rest).map EnumConst.name ∧
          ((List.filterMap id rest).map EnumConst.name).Nodup := by
        have hfm : List.filterMap id (some c :: rest) = c :: List.filterMap id rest := by
          simp
        rw [hfm, List.map_cons, List.nodup_cons] at hnd
        exact hnd
      have hfresh2 : ∀ c2, (some c2) ∈ rest →
          lookupA (emplaceA acc c.name c) c2.name = none := by
        intro c2 hc2
        rw [emplaceA_of_none c hc, lookupA_append, hfresh c2 (List.mem_cons_of_mem _ hc2)]
        have hne : c2.name ≠ c.name := by
          intro he
          exact hnd2.1 (he ▸ List.mem_map.mpr ⟨c2, List.mem_filterMap.mpr ⟨some c2, hc2, rfl⟩, rfl⟩)
        simp [lookupA, hne]
      have ih := collectEnumValues_ok_eq cls names rest (i + 1) _ values h hfresh2 hnd2.2
      rw [ih, emplaceA_of_none c hc]
      simp
    · simp [collectEnumValues, hn] at h

theorem enumClassResolve_ok (w : JavaWorld) (clsName : String) (reg : EnumRegistration)
    (tables : EnumTables) (h : enumClassResolve w clsName reg = Except.ok tables) :
    ∃ arr values,
      w.valuesArray (replaceChar clsName '.' '/') = some arr ∧
      collectEnumValues clsName reg.names 0 arr [] = Except.ok values ∧
      initializeFrom values reg.bindings ⟨[], []⟩ = some tables := by
  unfold enumClassResolve at h
  by_cases h1 : w.findClass (replaceChar clsName '.' '/')
  · rw [if_pos h1] at h
    by_cases h2 : w.hasStaticMethod (replaceChar clsName '.' '/') "values"
        (valuesSigOf (replaceChar clsName '.' '/'))
    · rw [if_pos h2] at h
      by_cases h3 : w.hasMethod (replaceChar clsName '.' '/') "ordinal" "()I"
      · rw [if_pos h3] at h
        by_cases h4 : w.hasMethod (replaceChar clsName '.' '/') "name" "()Ljava/lang/String;"
        · rw [if_pos h4] at h
          cases harr : w.valuesArray (replaceChar clsName '.' '/') with
          | none =>
            rw [harr] at h
            dsimp only at h
            cases h
          | some arr =>
            rw [harr] at h
            dsimp only at h
            cases hcoll : collectEnumValues clsName reg.names 0 arr [] with
            | error m =>
              rw [hcoll] at h
              dsimp only at h
              cases h
            | ok values =>
              rw [hcoll] at h
              dsimp only at h
              cases hinit : initializeFrom values reg.bindings ⟨[], []⟩ with
              | none =>
                rw [hinit] at h
                dsimp only at h
                cases h
              | some t2 =>
                rw [hinit] at h
                dsimp only at h
                cases h
                exact ⟨arr, values, rfl, hcoll, hinit⟩
        · rw [if_neg h4] at h
          cases h
      · rw [if_neg h3] at h
        cases h
    · rw [if_neg h2] at h
      cases h
  · rw [if_neg h1] at h
    cases h

theorem initializeEnumBindings_ok_member (w : JavaWorld) :
    ∀ (l : List (String × EnumRegistration)) (p : Pending),
      (initializeEnumBindings w p l).1.earlyReturn = none →
      ∀ q ∈ l, ∃ tbl, enumClassResolve w q.1 q.2 = Except.ok tbl ∧
        (q.1, tbl) ∈ (initializeEnumBindings w p l).2
  | [], _, _, q, hq => absurd hq (by simp)
  | (cls, reg) :: rest, p, h, q, hq => by
    cases hres : enumClassResolve w cls reg with
    | error m =>
      simp [initializeEnumBindings, initializeEnumClass, hres] at h
    | ok tbl =>
      simp only [initializeEnumBindings, initializeEnumClass, hres] at h ⊢
      rcases List.mem_cons.mp hq with h1 | h1
      · subst h1
        exact ⟨tbl, hres, by simp⟩
      · obtain ⟨tbl2, hres2, hmem2⟩ :=
          initializeEnumBindings_ok_member w rest p h q h1
        exact ⟨tbl2, hres2, by simp [hmem2]⟩

theorem checkFields_code (w : JavaWorld) (p : Pending) (cls : String) :
    ∀ bnds c, (checkFields w p cls bnds).earlyReturn = some c → c = JNI_ERR
  | [], c, h => by simp [checkFields] at h
  | (n, s) :: rest, c, h => by
    by_cases hh : w.hasField cls n s
    · simp only [checkFields, if_pos hh] at h
      exact checkFields_code w p cls rest c h
    · simp only [checkFields, if_neg hh, Option.some.injEq] at h
      exact h.symm

theorem checkFieldBindings_code (w : JavaWorld) :
    ∀ (l : List (String × List (String × String))) (p : Pending) c,
      (checkFieldBindings w p l).earlyReturn = some c → c = JNI_ERR
  | [], _, c, h => by simp [checkFieldBindings] at h
  | (cls, bnds) :: rest, p, c, h => by
    by_cases hf : w.findClass cls
    · simp only [checkFieldBindings, if_pos hf] at h
      cases hck : (checkFields w p cls bnds).earlyReturn with
      | some c2 =>
        rw [hck] at h
        cases h
        exact checkFields_code w p cls bnds c hck
      | none =>
        rw [hck] at h
        exact checkFieldBindings_code w rest _ c h
    · simp only [checkFieldBindings, if_neg hf, Option.some.injEq] at h
      exact h.symm

theorem initializeEnumBindings_code (w : JavaWorld) :
    ∀ (l : List (String × EnumRegistration)) (p : Pending) c,
      (initializeEnumBindings w p l).1.earlyReturn = some c → c = JNI_ERR
  | [], _, c, h => by simp [initializeEnumBindings] at h
  | (cls, reg) :: rest, p, c, h => by
    cases hres : enumClassResolve w cls reg with
    | error m =>
      simp only [initializeEnumBindings, initializeEnumClass, hres,
        Option.some.injEq] at h
      exact h.symm
    | ok tbl =>
      simp only [initializeEnumBindings, initializeEnumClass, hres] at h
      exact initializeEnumBindings_code w rest p c h

/-- Extracting the successful enum phase from a successful load: if the
load returned the success version code, phase 3 ran to completion on some
pending state and the load's tables are its tables. -/
theorem load_ok_enum_phase (w : JavaWorld) (regs : Registries) (cb : Pending)
    (hrc : ∀ cn, w.registerNativesCode cn ≤ 0)
    (hok : (java_initialization_impl w JNI_OK cb (Except.ok regs)).status =
      JNI_VERSION_1_6) :
    ∃ p2, (initializeEnumBindings w p2 regs.enumBindings).1.earlyReturn = none ∧
      (java_initialization_impl w JNI_OK cb (Except.ok regs)).enumTables =
        (initializeEnumBindings w p2 regs.enumBindings).2 := by
  rw [java_initialization_impl_ok] at hok ⊢
  cases hret : (registerFunctionClasses w cb regs.functionBindings).earlyReturn with
  | some c =>
    rw [loadPhases_abort1 w cb regs c hret] at hok
    have hc : c = JNI_VERSION_1_6 := hok
    subst hc
    rcases registerFunctionClasses_fail_code w cb regs.functionBindings _ hret with
      h1 | ⟨cn, hcn, _⟩
    · norm_num [JNI_ERR, JNI_VERSION_1_6] at h1
    · have := hrc cn
      rw [← hcn] at this
      norm_num [JNI_VERSION_1_6] at this
  | none =>
    cases hpend : (registerFunctionClasses w cb regs.functionBindings).pending.isSome with
    | true =>
      rw [loadPhases_excheck w cb regs hret hpend] at hok
      have hc : JNI_ERR = JNI_VERSION_1_6 := hok
      norm_num [JNI_ERR, JNI_VERSION_1_6] at hc
    | false =>
      cases hck : (checkFieldBindings w
          (registerFunctionClasses w cb regs.functionBindings).pending
          regs.fieldBindings).earlyReturn with
      | some c =>
        rw [loadPhases_abort2 w cb regs c hret hpend hck] at hok
        have hc : c = JNI_VERSION_1_6 := hok
        have := checkFieldBindings_code w regs.fieldBindings _ c hck
        subst this
        norm_num [JNI_ERR, JNI_VERSION_1_6] at hc
      | none =>
        cases hen : (initializeEnumBindings w
            (checkFieldBindings w
              (registerFunctionClasses w cb regs.functionBindings).pending
              regs.fieldBindings).pending regs.enumBindings).1.earlyReturn with
        | some c =>
          rw [loadPhases_abort3 w cb regs c hret hpend hck hen] at hok
          have hc : c = JNI_VERSION_1_6 := hok
          have := initializeEnumBindings_code w regs.enumBindings _ c hen
          subst this
          norm_num [JNI_ERR, JNI_VERSION_1_6] at hc
        | none =>
          rw [loadPhases_success w cb regs hret hpend hck hen]
          exact ⟨(checkFieldBindings w
              (registerFunctionClasses w cb regs.functionBindings).pending
              regs.fieldBindings).pending, hen, rfl⟩

/-- C9 counterexample: registering two native enumerators (0 and 1) under
the same Java constant name A — a state the enum_class builder itself
produces — passes both load-time validation directions (the load returns
the success code), even though the managed enum has one constant and the
native side has two registrations; and the round trip of registered native
enumerator 1 yields 0, not 1.  This refutes both the count-mismatch-fails
part and the unconditional round-trip part of the claim. -/
theorem enum_duplicate_name_breaks_roundtrip :
    ((enum_class_init Registries.empty "com.example.Color").map fun r =>
        enum_class_value (enum_class_value r "com.example.Color" 0 "A")
          "com.example.Color" 1 "A") = Except.ok regsDupEnum ∧
    (java_initialization_impl wDupEnum JNI_OK none (Except.ok regsDupEnum)).status =
      JNI_VERSION_1_6 ∧
    lookupA regsDupEnum.enumBindings "com.example.Color" =
      some ⟨["A"], [(0, "A"), (1, "A")]⟩ ∧
    ((1 : Int), "A") ∈ ([((0 : Int), "A"), (1, "A")] : List (Int × String)) ∧
    wDupEnum.valuesArray "com/example/Color" = some [some ⟨"A", 0⟩] ∧
    ([((0 : Int), "A"), (1, "A")] : List (Int × String)).length = 2 ∧
    ([some (⟨"A", 0⟩ : EnumConst)] : List (Option EnumConst)).length = 1 ∧
    (java_initialization_impl wDupEnum JNI_OK none (Except.ok regsDupEnum)).enumTables =
      [("com.example.Color", colorTables)] ∧
    enumRoundTrip colorTables 1 = some 0 ∧
    some (0 : Int) ≠ some (1 : Int) := by
  refine ⟨rfl, rfl, rfl, by simp, rfl, rfl, rfl, rfl, rfl, by simp⟩

/-- C9 (amended): whenever the load returns the success code, each
registered enum class passed both validation directions — every managed
constant of the values() array is non-null and carries a name registered
in C++ code, and every natively registered binding's name corresponds to a
managed constant — and, provided the managed constants have distinct names
and distinct ordinals (as the JVM guarantees) and no two native
enumerators were registered under the same Java name, converting every
registered native enumerator to its managed constant and back through the
populated lookup tables yields the original enumerator. -/
theorem enum_validation_and_roundtrip (w : JavaWorld) (cb : Pending) (regs : Registries)
    (clsName : String) (reg : EnumRegistration)
    (hrc : ∀ cn, w.registerNativesCode cn ≤ 0)
    (hmem : (clsName, reg) ∈ regs.enumBindings)
    (hok : (java_initialization_impl w JNI_OK cb (Except.ok regs)).status =
      JNI_VERSION_1_6) :
    ∃ arr, w.valuesArray (replaceChar clsName '.' '/') = some arr ∧
      (∀ e ∈ arr, ∃ c, e = some c ∧ c.name ∈ reg.names) ∧
      (∀ p ∈ reg.bindings, ∃ c, (some c) ∈ arr ∧ c.name = p.2) ∧
      (((arr.filterMap id).map EnumConst.name).Nodup →
       ((arr.filterMap id).map EnumConst.ordinal).Nodup →
       (reg.bindings.map Prod.fst).Nodup →
       (reg.bindings.map Prod.snd).Nodup →
       ∃ tables, (clsName, tables) ∈
           (java_initialization_impl w JNI_OK cb (Except.ok regs)).enumTables ∧
         ∀ p ∈ reg.bindings, enumRoundTrip tables p.1 = some p.1) := by
  obtain ⟨p2, hearly, htbl⟩ := load_ok_enum_phase w regs cb hrc hok
  obtain ⟨tbl, hres, hmem2⟩ :=
    initializeEnumBindings_ok_member w regs.enumBindings p2 hearly (clsName, reg) hmem
  obtain ⟨arr, values, harr, hcoll, hinit⟩ := enumClassResolve_ok w clsName reg tbl hres
  refine ⟨arr, harr, ?_, ?_, ?_⟩
  · exact collectEnumValues_ok_elements clsName reg.names arr 0 [] values hcoll
  · intro p hp
    obtain ⟨c, hc⟩ :=
      initializeFrom_values_used values reg.bindings ⟨[], []⟩ tbl hinit p hp
    have hcmem := lookupA_mem values p.2 c hc
    rcases collectEnumValues_ok_entries clsName reg.names arr 0 [] values hcoll
        (p.2, c) hcmem with h1 | h1
    · simp at h1
    · exact ⟨c, h1.1, h1.2⟩
  · intro hndn hndo hbk hbn
    refine ⟨tbl, by rw [htbl]; exact hmem2, ?_⟩
    have heq := collectEnumValues_ok_eq clsName reg.names arr 0 [] values hcoll
      (fun c hc => rfl) hndn
    have hvords : (values.map fun p => (p.2).ordinal).Nodup := by
      rw [heq]
      simpa [List.map_map, Function.comp] using hndo
    intro p hp
    obtain ⟨c, hc, hvto, hotv⟩ :=
      initializeFrom_lookups values hvords reg.bindings ⟨[], []⟩ tbl hinit hbk hbn
        (fun _ _ => rfl) (fun _ _ _ _ => rfl) p hp
    simp only [enumRoundTrip, hvto, hotv]

/-- C9 witness: a well-formed single-constant enum registration loads
successfully and round-trips its only enumerator. -/
theorem enum_validation_and_roundtrip_witness :
    ∃ arr, wDupEnum.valuesArray (replaceChar "com.example.Color" '.' '/') = some arr ∧
      (∀ e ∈ arr, ∃ c, e = some c ∧
        c.name ∈ (⟨["A"], [(0, "A")]⟩ : EnumRegistration).names) ∧
      (∀ p ∈ (⟨["A"], [(0, "A")]⟩ : EnumRegistration).bindings,
        ∃ c, (some c) ∈ arr ∧ c.name = p.2) ∧
      (((arr.filterMap id).map EnumConst.name).Nodup →
       ((arr.filterMap id).map EnumConst.ordinal).Nodup →
       ((⟨["A"], [(0, "A")]⟩ : EnumRegistration).bindings.map Prod.fst).Nodup →
       ((⟨["A"], [(0, "A")]⟩ : EnumRegistration).bindings.map Prod.snd).Nodup →
       ∃ tables, ("com.example.Color", tables) ∈
           (java_initialization_impl wDupEnum JNI_OK none
             (Except.ok regsOneOfEach)).enumTables ∧
         ∀ p ∈ (⟨["A"], [(0, "A")]⟩ : EnumRegistration).bindings,
           enumRoundTrip tables p.1 = some p.1) :=
  enum_validation_and_roundtrip wDupEnum none regsOneOfEach "com.example.Color"
    ⟨["A"], [(0, "A")]⟩ (fun cn => le_refl 0) (by simp [regsOneOfEach]) rfl

/-! ### Round-trip lemmas for the marshaling converters -/

theorem nativeFields_skip (n : String) (jv : JVal) :
    ∀ (fl : FieldTyList) (jfl : JFieldList), n ∉ namesF fl →
      nativeFields fl (JFieldList.fcons n jv jfl) = nativeFields fl jfl
  | .nil, _, _ => rfl
  | .cons m t fl2, jfl, h => by
    have hmn : m ≠ n := by
      intro he
      exact h (by simp [namesF, he])
    have hlk : lookupF (JFieldList.fcons n jv jfl) m = lookupF jfl m := by
      simp [lookupF, hmn]
    have hrest : n ∉ namesF fl2 := by
      intro hm
      exact h (by simp [namesF, hm])
    simp only [nativeFields, hlk, nativeFields_skip n jv fl2 jfl hrest]

theorem javaValue_ne_jnull :
    ∀ (t : MTy) (v : NVal) (jv : JVal), optElemOk t → javaValue t v = some jv →
      jv ≠ JVal.jnull := by
  intro t v jv hok hj hnull
  subst hnull
  cases t with
  | boolean => cases v <;> simp [javaValue] at hj
  | prim p => cases v <;> simp [javaValue] at hj
  | str => cases v <;> simp [javaValue] at hj
  | jrecord cls fl => cases v <;> simp [javaValue] at hj
  | jenum cls tables => cases v <;> simp [javaValue] at hj
  | arr e => simp [optElemOk] at hok
  | boolarr => simp [optElemOk] at hok
  | opt e => simp [optElemOk] at hok
  | jmap a b => simp [optElemOk] at hok

theorem nativeValue_opt_nonnull :
    ∀ (t : MTy) (jv : JVal), optElemOk t → isArithmetic t = false → jv ≠ JVal.jnull →
      nativeValue (MTy.opt t) jv = (nativeValue t jv).map NVal.noptSome := by
  intro t jv hok hna hnn
  cases t with
  | boolean => simp [isArithmetic] at hna
  | prim p => simp [isArithmetic] at hna
  | str => cases jv <;> first | (exact absurd rfl hnn) | rfl
  | jrecord cls fl => cases jv <;> first | (exact absurd rfl hnn) | rfl
  | jenum cls tables => cases jv <;> first | (exact absurd rfl hnn) | rfl
  | arr e => simp [optElemOk] at hok
  | boolarr => simp [optElemOk] at hok
  | opt e => simp [optElemOk] at hok
  | jmap a b => simp [optElemOk] at hok

mutual

/-- Round trip of one well-typed value at a well-formed catalog type: the
conversion to the boundary succeeds and converting back yields the
original value. -/
theorem roundTripVal : ∀ (t : MTy) (v : NVal), WfTy t → hasTy t v →
    ∃ jv, javaValue t v = some jv ∧ nativeValue t jv = some v := by
  intro t v hw ht
  cases v with
  | nbool b =>
    cases t <;> try (simp [hasTy] at ht)
    exact ⟨JVal.jbool b, rfl, rfl⟩
  | nint q i =>
    cases t with
    | prim p =>
      have hq : q = p := ht
      subst hq
      exact ⟨JVal.jint q i, by simp [javaValue], by simp [nativeValue]⟩
    | _ => simp [hasTy] at ht
  | nstr s =>
    cases t <;> try (simp [hasTy] at ht)
    exact ⟨JVal.jstr s, rfl, rfl⟩
  | narr q xs =>
    cases t with
    | arr e =>
      cases e with
      | prim p =>
        have hq : q = p := ht
        subst hq
        exact ⟨JVal.jarr q xs, by simp [javaValue], by simp [nativeValue]⟩
      | _ => simp [hasTy] at ht
    | _ => simp [hasTy] at ht
  | nboolarr bs =>
    cases t <;> try (simp [hasTy] at ht)
    exact ⟨JVal.jboolarr bs, rfl, rfl⟩
  | noptNone =>
    cases t <;> try (simp [hasTy] at ht)
    exact ⟨JVal.jnull, rfl, rfl⟩
  | noptSome v0 =>
    cases t with
    | opt e =>
      obtain ⟨hok, hwe⟩ := hw
      have htv : hasTy e v0 := ht
      obtain ⟨jv0, hj, hn⟩ := roundTripVal e v0 hwe htv
      by_cases harith : isArithmetic e = true
      · cases e with
        | boolean =>
          refine ⟨JVal.jbox jv0, ?_, ?_⟩
          · show (javaValue MTy.boolean v0).map JVal.jbox = some (JVal.jbox jv0)
            rw [hj]
            rfl
          · show (nativeValue MTy.boolean jv0).map NVal.noptSome =
              some (NVal.noptSome v0)
            rw [hn]
            rfl
        | prim p =>
          refine ⟨JVal.jbox jv0, ?_, ?_⟩
          · show (javaValue (MTy.prim p) v0).map JVal.jbox = some (JVal.jbox jv0)
            rw [hj]
            rfl
          · show (nativeValue (MTy.prim p) jv0).map NVal.noptSome =
              some (NVal.noptSome v0)
            rw [hn]
            rfl
        | str => simp [isArithmetic] at harith
        | jrecord cls fl => simp [isArithmetic] at harith
        | jenum cls tables => simp [isArithmetic] at harith
        | arr e2 => simp [optElemOk] at hok
        | boolarr => simp [optElemOk] at hok
        | opt e2 => simp [optElemOk] at hok
        | jmap a b => simp [optElemOk] at hok
      · have hnn := javaValue_ne_jnull e v0 jv0 hok hj
        refine ⟨jv0, ?_, ?_⟩
        · cases e with
          | boolean => simp [isArithmetic] at harith
          | prim p => simp [isArithmetic] at harith
          | str =>
            show javaValue MTy.str v0 = some jv0
            exact hj
          | jrecord cls fl =>
            show javaValue (MTy.jrecord cls fl) v0 = some jv0
            exact hj
          | jenum cls tables =>
            show javaValue (MTy.jenum cls tables) v0 = some jv0
            exact hj
          | arr e2 => simp [optElemOk] at hok
          | boolarr => simp [optElemOk] at hok
          | opt e2 => simp [optElemOk] at hok
          | jmap a b => simp [optElemOk] at hok
        · rw [nativeValue_opt_nonnull e jv0 hok (by simpa using harith) hnn, hn]
          rfl
    | _ => simp [hasTy] at ht
  | nrecord vfl =>
    cases t with
    | jrecord cls fl =>
      obtain ⟨hnd, hwf⟩ := hw
      have htf : hasTyFields fl vfl := ht
      obtain ⟨jfl, hjf, hnf⟩ := roundTripFields fl vfl hnd hwf htf
      refine ⟨JVal.jobject jfl, ?_, ?_⟩
      · show (javaFields fl vfl).map JVal.jobject = some (JVal.jobject jfl)
        rw [hjf]
        rfl
      · show (nativeFields fl jfl).map NVal.nrecord = some (NVal.nrecord vfl)
        rw [hnf]
        rfl
    | _ => simp [hasTy] at ht
  | nenum ev =>
    cases t with
    | jenum cls tables =>
      have hsome : (lookupA tables.values_to_objects ev).isSome = true := ht
      obtain ⟨c, hc⟩ := Option.isSome_iff_exists.mp hsome
      refine ⟨JVal.jenumconst c, ?_, ?_⟩
      · show (lookupA tables.values_to_objects ev).map JVal.jenumconst =
          some (JVal.jenumconst c)
        rw [hc]
        rfl
      · show (lookupA tables.ordinals_to_values c.ordinal).map NVal.nenum =
          some (NVal.nenum ev)
        rw [enumTablesWf_roundtrip tables hw ev c hc]
        rfl
    | _ => simp [hasTy] at ht

/-- Round trip of a record's registered fields: writing them through
java_set_field_value in registration order and reading them back by
name-keyed lookup restores the original field values, given distinct
registered names. -/
theorem roundTripFields : ∀ (fl : FieldTyList) (vfl : NFieldList),
    (namesF fl).Nodup → WfFields fl → hasTyFields fl vfl →
    ∃ jfl, javaFields fl vfl = some jfl ∧ nativeFields fl jfl = some vfl := by
  intro fl vfl hnd hwf ht
  cases fl with
  | nil =>
    cases vfl with
    | nil => exact ⟨JFieldList.fnil, rfl, rfl⟩
    | cons n v rest => simp [hasTyFields] at ht
  | cons n t fl2 =>
    cases vfl with
    | nil => simp [hasTyFields] at ht
    | cons n2 v vfl2 =>
      obtain ⟨hn2, htv, htf⟩ := ht
      subst hn2
      obtain ⟨_hfe, hwt, hwf2⟩ := hwf
      have hnds : n2 ∉ namesF fl2 ∧ (namesF fl2).Nodup := by
        rw [show namesF (FieldTyList.cons n2 t fl2) = n2 :: namesF fl2 from rfl,
          List.nodup_cons] at hnd
        exact hnd
      obtain ⟨jv0, hj, hn⟩ := roundTripVal t v hwt htv
      obtain ⟨jfl2, hjf, hnf⟩ := roundTripFields fl2 vfl2 hnds.2 hwf2 htf
      refine ⟨JFieldList.fcons n2 jv0 jfl2, ?_, ?_⟩
      · simp [javaFields, hj, hjf]
      · have hskip := nativeFields_skip n2 jv0 fl2 jfl2 hnds.1
        simp [nativeFields, lookupF, hn, hskip, hnf]

end

/-- C3 counterexample: the supported type optional of optional of int32
(its converter instantiates, with the inner element's class name) does not
round trip: the native value some-of-absent converts to the boundary null
reference, which converts back to the absent optional, not to the original
value.  Structural equality fails for a value constructible in native
code. -/
theorem nested_optional_roundtrip_fails :
    javaValue (MTy.opt (MTy.opt (MTy.prim PrimTy.pint)))
        (NVal.noptSome NVal.noptNone) = some JVal.jnull ∧
    nativeValue (MTy.opt (MTy.opt (MTy.prim PrimTy.pint))) JVal.jnull =
      some NVal.noptNone ∧
    NVal.noptNone ≠ NVal.noptSome NVal.noptNone := by
  refine ⟨rfl, rfl, by simp⟩

/-- C3 (amended): for every supported type and every well-typed value
constructible in native code — primitives, strings, primitive arrays,
optionals whose element type is not itself an optional, registered enums
after a well-formed load, and records with distinct registered field
names — converting the value to its boundary representation and back
yields a structurally equal value; in particular boundary boolean true
yields native true. -/
theorem marshal_roundtrip :
    (∀ (t : MTy) (v : NVal), WfTy t → hasTy t v →
      ∃ jv, javaValue t v = some jv ∧ nativeValue t jv = some v) ∧
    nativeValue MTy.boolean (JVal.jbool true) = some (NVal.nbool true) :=
  ⟨fun t v hw ht => roundTripVal t v hw ht, rfl⟩

/-- C3 witness: native int32 82 round-trips to 82, and boundary boolean
true yields native true. -/
theorem marshal_roundtrip_witness :
    (∃ jv, javaValue (MTy.prim PrimTy.pint) (NVal.nint PrimTy.pint 82) = some jv ∧
      nativeValue (MTy.prim PrimTy.pint) jv = some (NVal.nint PrimTy.pint 82)) ∧
    nativeValue MTy.boolean (JVal.jbool true) = some (NVal.nbool true) :=
  ⟨marshal_roundtrip.1 (MTy.prim PrimTy.pint) (NVal.nint PrimTy.pint 82) trivial rfl,
   marshal_roundtrip.2⟩

end Javabind